import Mathlib

/-!
Verification of the message-extractor ingestion engine.

Shallow embedding of the claim-relevant parts of the repository:

* `ChatDatabaseCreator._normalize_phone` (scripts/create_database.py)
* `Contact.__eq__` and `Contact.__hash__` (schema.py)
* the SQL statements of the relational projection, their triggers, and the
  two conversation-import paths (scripts/create_database.py and
  import_whatsapp_to_database.py)
* `safe_file_write` (src/utils/error_handling.py) as used by
  `ChunkedProcessor.save_checkpoint`
* `ChunkedProcessor.process_chunked` (src/utils/chunked_processor.py)

Machine integers do not occur on the claim-relevant paths; counters and
timestamps are modelled as `Nat`, SQL text values as `String`.
-/

namespace MessageExtractor

/-! ## Python string helpers -/

/-- Python `needle.isPrefix-like` check at the head of a character list:
`leadsWith hay needle` is true when `needle` occurs at the start of `hay`. -/
def leadsWith : List Char → List Char → Bool
  | _, [] => true
  | [], _ :: _ => false
  | c :: cs, d :: ds => c == d && leadsWith cs ds

/-- Python substring containment on character lists (`needle in hay`). -/
def containsSeq (needle : List Char) : List Char → Bool
  | [] => needle.isEmpty
  | c :: t => leadsWith (c :: t) needle || containsSeq needle t

/-- Python `needle in hay` on strings. -/
def pyInStr (needle hay : String) : Bool := containsSeq needle.data hay.data

/-- Python `s.startswith(c)` for a one-character argument. -/
def pyStartsWith (s : String) (c : Char) : Bool :=
  match s.data with
  | [] => false
  | d :: _ => d == c

/-- Python `str.isdigit`: nonempty and all digits (ASCII range suffices here). -/
def pyIsDigit (s : String) : Bool := !s.data.isEmpty && s.data.all Char.isDigit

/-- Truthiness of an optional Python string (`if s:`): present and nonempty. -/
def pyTruthy : Option String → Bool
  | some s => s ≠ ""
  | none => false

/-- Python `a or b` for an optional string `a` and a string default `b`. -/
def pyOrStr (a : Option String) (b : String) : String :=
  match a with
  | some s => if s = "" then b else s
  | none => b

/-! ## Phone normalization (`ChatDatabaseCreator._normalize_phone`) -/

/-- Characters kept by `re.sub(r'[^\d+]', '', phone)`: digits and the plus sign. -/
def keepPhoneChar (c : Char) : Bool := c.isDigit || c == '+'

/-- `re.sub(r'[^\d+]', '', phone)`. -/
def cleanPhone (phone : String) : String := ⟨phone.data.filter keepPhoneChar⟩

/-- `ChatDatabaseCreator._normalize_phone` (scripts/create_database.py lines 138-161).
`none` models the `return None` taken for an empty (falsy) input string. -/
def normalizePhone (phone : String) : Option String :=
  if phone = "" then none
  else
    let cleaned := cleanPhone phone
    if pyIsDigit cleaned && cleaned.length == 10 then some ("+1" ++ cleaned)
    else if pyIsDigit cleaned && cleaned.length == 11 && pyStartsWith cleaned '1' then
      some ("+" ++ cleaned)
    else if pyIsDigit cleaned && decide (10 < cleaned.length) then some ("+" ++ cleaned)
    else if pyStartsWith cleaned '+' then some cleaned
    else some phone

theorem cleanPhone_empty : cleanPhone "" = "" := rfl

theorem cleanPhone_eq_empty_of_eq_empty {s : String} (h : s = "") : cleanPhone s = "" := by
  subst h; rfl

theorem pyIsDigit_false_of_plus_head {s : String} (h : pyStartsWith s '+' = true) :
    pyIsDigit s = false := by
  unfold pyStartsWith at h
  unfold pyIsDigit
  cases hd : s.data with
  | nil => simp [hd]
  | cons c t =>
    rw [hd] at h
    have hc : c = '+' := by simpa using h
    subst hc
    simp [hd, List.all_cons]

/-- C7. Phone normalization: values of `_normalize_phone` on the three cases the
spec describes, stated over the stripped string `cleanPhone s`: a stripped
10-digit string gets the domestic prefix `+1`; a stripped 11-digit string
starting with the digit 1 gets `+` prepended; a stripped string already
starting with `+` is returned exactly as stripped. -/
theorem normalizePhone_spec_cases (s : String) :
    (pyIsDigit (cleanPhone s) = true → (cleanPhone s).length = 10 →
      normalizePhone s = some ("+1" ++ cleanPhone s)) ∧
    (pyIsDigit (cleanPhone s) = true → (cleanPhone s).length = 11 →
      pyStartsWith (cleanPhone s) '1' = true →
      normalizePhone s = some ("+" ++ cleanPhone s)) ∧
    (pyStartsWith (cleanPhone s) '+' = true → normalizePhone s = some (cleanPhone s)) := by
  refine ⟨?_, ?_, ?_⟩
  · intro hdig hlen
    have hs : ¬ s = "" := by
      intro h
      rw [cleanPhone_eq_empty_of_eq_empty h] at hdig
      simp [pyIsDigit] at hdig
    simp [normalizePhone, hs, hdig, hlen]
  · intro hdig hlen hone
    have hs : ¬ s = "" := by
      intro h
      rw [cleanPhone_eq_empty_of_eq_empty h] at hdig
      simp [pyIsDigit] at hdig
    simp [normalizePhone, hs, hdig, hlen, hone]
  · intro hplus
    have hs : ¬ s = "" := by
      intro h
      rw [cleanPhone_eq_empty_of_eq_empty h] at hplus
      simp [pyStartsWith] at hplus
    have hdig := pyIsDigit_false_of_plus_head hplus
    simp [normalizePhone, hs, hdig, hplus]

/-- Witness for C7 at concrete inputs: a formatted domestic number, an
11-digit number with the country digit, and an already-prefixed number. -/
theorem normalizePhone_spec_cases_witness :
    normalizePhone "(555) 123-4567" = some "+15551234567" ∧
    normalizePhone "1 555 123 4567" = some "+15551234567" ∧
    normalizePhone "+44 20 7946 0958" = some "+442079460958" := by
  refine ⟨?_, ?_, ?_⟩
  · exact ((normalizePhone_spec_cases "(555) 123-4567").1 (by decide) (by decide)).trans
      (by decide)
  · exact ((normalizePhone_spec_cases "1 555 123 4567").2.1 (by decide) (by decide)
      (by decide)).trans (by decide)
  · exact ((normalizePhone_spec_cases "+44 20 7946 0958").2.2 (by decide)).trans (by decide)

/-! ## Contact equality and hashing (schema.py `Contact`) -/

/-- `Contact` dataclass fields (schema.py lines 11-39). -/
structure Contact where
  name : Option String
  email : Option String
  phone : Option String
  platform_id : String
  platform : String
deriving DecidableEq

/-- `Contact.__eq__`: equality on `email`, `phone` and `platform_id` only
(the `isinstance` guard is the type of the arguments here). -/
def contactEq (a b : Contact) : Bool :=
  a.email == b.email && a.phone == b.phone && a.platform_id == b.platform_id

/-- The tuple `Contact.__hash__` feeds to Python `hash`:
`(self.email, self.phone, self.platform_id, self.platform)`. Equal tuples give
equal hashes; the hash of distinct tuples is not constrained, so hash-input
equality is exactly the congruence the claim needs. -/
def contactHashInput (a : Contact) : Option String × Option String × String × String :=
  (a.email, a.phone, a.platform_id, a.platform)

/-- C9. Failing input for the eq/hash contract: two `Contact`s equal under
`__eq__` (same email, phone, platform_id) but with different `platform`
values feed different tuples to `hash`, so equal contacts are not guaranteed
equal hashes: the congruence `a == b → hash(a) == hash(b)` fails. -/
theorem contact_eq_hash_incongruent_at_failing_input :
    contactEq
      ⟨some "Alice", some "a@example.com", none, "123", "imessage"⟩
      ⟨some "Alice", some "a@example.com", none, "123", "whatsapp"⟩ = true ∧
    contactHashInput ⟨some "Alice", some "a@example.com", none, "123", "imessage"⟩ ≠
      contactHashInput ⟨some "Alice", some "a@example.com", none, "123", "whatsapp"⟩ := by
  constructor
  · rfl
  · decide

/-! ## Conversation-write statements and trigger columns

Column lists transcribed from the SQL statements that write `conversations`
rows on the cited ingestion paths, and from the triggers created by
`ChatDatabaseCreator._create_triggers`. -/

/-- The derived aggregate columns of `conversations` named by the claim. -/
def conversationDerivedColumns : List String :=
  ["message_count", "first_message_at", "last_message_at", "participant_count"]

/-- Explicit column list of the `INSERT INTO conversations` in
`ChatDatabaseCreator._create_conversation` (scripts/create_database.py
lines 770-784). -/
def imessageConversationInsertColumns : List String :=
  ["conversation_name", "platform", "thread_id",
   "first_message_at", "last_message_at", "is_group", "participant_count"]

/-- Explicit column list of the `INSERT INTO conversations` in
`WhatsAppDatabaseImporter.import_conversation`
(import_whatsapp_to_database.py lines 109-118). -/
def whatsappConversationInsertColumns : List String :=
  ["conversation_name", "platform", "thread_id",
   "first_message_at", "last_message_at", "is_group", "participant_count",
   "message_count"]

/-- The conversations-writing statements issued by the cited ingestion paths
(there is no ingestion-side `UPDATE conversations`; the only such updates
live inside the triggers). -/
def ingestionConversationWriteColumnSets : List (List String) :=
  [imessageConversationInsertColumns, whatsappConversationInsertColumns]

/-- Columns SET by trigger `update_conversation_timestamps`
(AFTER INSERT ON messages). -/
def triggerTimestampsColumns : List String :=
  ["last_message_at", "message_count", "first_message_at"]

/-- Columns SET by trigger `detect_group_conversation`
(AFTER INSERT ON conversation_participants). -/
def triggerGroupColumns : List String := ["is_group", "participant_count"]

/-- C5 counterexample: the claim "every ingestion-side conversations write
sets none of the derived aggregate columns" is false: the WhatsApp
importer's INSERT explicitly lists `message_count` (and both inserts list
`first_message_at`, `last_message_at`, `participant_count`). -/
theorem ingestion_writes_derived_columns :
    ¬ (∀ cols ∈ ingestionConversationWriteColumnSets,
        ∀ c ∈ conversationDerivedColumns, c ∉ cols) := by
  intro h
  exact h whatsappConversationInsertColumns (by decide) "message_count" (by decide) (by decide)

/-- C5 amended: the triggers do cover every derived column, and the iMessage
insert leaves `message_count` to its trigger-maintained default, but both
ingestion inserts explicitly set `first_message_at`, `last_message_at` and
`participant_count`, and the WhatsApp insert additionally sets
`message_count`. -/
theorem conversation_derived_columns_written_by :
    ("message_count" ∉ imessageConversationInsertColumns) ∧
    ("message_count" ∈ whatsappConversationInsertColumns) ∧
    ("first_message_at" ∈ imessageConversationInsertColumns ∧
     "last_message_at" ∈ imessageConversationInsertColumns ∧
     "participant_count" ∈ imessageConversationInsertColumns) ∧
    (∀ c ∈ conversationDerivedColumns,
      c ∈ triggerTimestampsColumns ∨ c ∈ triggerGroupColumns) := by
  decide

/-! ## Checkpoint file writing (`safe_file_write`, `save_checkpoint`)

`safe_file_write` opens the target path itself with mode `'w'` (truncating
it) and writes the content into it; `save_checkpoint` calls it with
`backup=False`, so no rename of any kind occurs. The write is modelled as
the sequence of file operations the `open`/`write` pair performs, over a
file system mapping paths to contents. -/

/-- One observable file operation. -/
inductive FileOp
  /-- `open(path, "w")` truncates the file to empty. -/
  | truncate (path : String)
  /-- `f.write(content)` appends to the (just truncated) open file. -/
  | write (path : String) (content : String)
  /-- `os/Path.rename(src, dst)`; unused by `save_checkpoint` but part of the
  vocabulary the claimed write-temp-then-rename scheme would need. -/
  | rename (src dst : String)
deriving DecidableEq

/-- A file system: association list from path to contents. -/
def Fs := List (String × String)

/-- Contents of `p`, if the file exists. -/
def fsGet (fs : Fs) (p : String) : Option String :=
  (List.find? (fun e => e.1 == p) fs).map (fun e => e.2)

/-- Set the contents of `p`. -/
def fsSet (fs : Fs) (p v : String) : Fs :=
  (p, v) :: List.eraseP (fun e => e.1 == p) fs

/-- Remove `p`. -/
def fsRemove (fs : Fs) (p : String) : Fs := List.eraseP (fun e => e.1 == p) fs

def applyFileOp (fs : Fs) : FileOp → Fs
  | .truncate p => fsSet fs p ""
  | .write p c => fsSet fs p ((fsGet fs p).getD "" ++ c)
  | .rename src dst =>
      match fsGet fs src with
      | none => fs
      | some v => fsSet (fsRemove fs src) dst v

def applyFileOps (fs : Fs) (ops : List FileOp) : Fs := ops.foldl applyFileOp fs

/-- The file operations of `safe_file_write(file_path, content)` as called by
`ChunkedProcessor.save_checkpoint` (`backup=False`): open the checkpoint file
itself in truncating write mode, then write the new contents in place. -/
def safeFileWriteOps (path content : String) : List FileOp :=
  [FileOp.truncate path, FileOp.write path content]

/-- The path an operation touches last. -/
def FileOp.target : FileOp → String
  | .truncate p => p
  | .write p _ => p
  | .rename _ dst => dst

/-- Whether an operation is a rename. -/
def FileOp.isRename : FileOp → Bool
  | .rename _ _ => true
  | _ => false

/-- C2 counterexample: the write-temp-then-rename atomicity property — after
any prefix of the write, the checkpoint file holds either the old or the new
complete contents — fails for `safe_file_write`: interrupting between the
truncating open and the write (prefix of length 1) leaves an empty file,
which is neither the old checkpoint "old" nor the new checkpoint "new". -/
theorem checkpoint_write_not_atomic :
    ¬ (∀ k : Nat,
        fsGet (applyFileOps [("progress.json", "old")]
          ((safeFileWriteOps "progress.json" "new").take k)) "progress.json"
          = some "old" ∨
        fsGet (applyFileOps [("progress.json", "old")]
          ((safeFileWriteOps "progress.json" "new").take k)) "progress.json"
          = some "new") := by
  intro h
  have h1 := h 1
  revert h1
  decide

/-- C2 amended: `save_checkpoint` rewrites the checkpoint in place, not via a
temporary file: every operation of the write targets the checkpoint path
itself and none is a rename; an uninterrupted write leaves exactly the new
contents, while an interruption after the truncating open leaves an empty
file. -/
theorem checkpoint_write_in_place (fs : Fs) (path content : String) :
    fsGet (applyFileOps fs (safeFileWriteOps path content)) path = some content ∧
    fsGet (applyFileOps fs ((safeFileWriteOps path content).take 1)) path = some "" ∧
    (∀ op ∈ safeFileWriteOps path content, op.target = path ∧ op.isRename = false) := by
  refine ⟨?_, ?_, ?_⟩
  · simp [safeFileWriteOps, applyFileOps, applyFileOp, fsGet, fsSet]
  · simp [safeFileWriteOps, applyFileOps, applyFileOp, fsGet, fsSet]
  · intro op hop
    simp [safeFileWriteOps] at hop
    rcases hop with h | h <;> subst h <;> exact ⟨rfl, rfl⟩

/-- Witness for C2 amended at a concrete file system and contents. -/
theorem checkpoint_write_in_place_witness :
    fsGet (applyFileOps [("progress.json", "old")]
      (safeFileWriteOps "progress.json" "new")) "progress.json" = some "new" :=
  (checkpoint_write_in_place [("progress.json", "old")] "progress.json" "new").1

/-! ## Relational projection (schema, triggers, import paths)

Rows keep the claim-relevant columns of the schema created by
`ChatDatabaseCreator._create_schema`; surrogate ids mirror the
AUTOINCREMENT primary keys (starting at 1, so a Python `if not sender_id:`
is exactly a `none` check). Text timestamps are modelled as `Nat`. -/

structure ContactRow where
  contactId : Nat
  displayName : Option String
  email : Option String
  phone : Option String
  platform : String
  platformId : String
  isMe : Bool
  messageCount : Nat
  firstSeen : Option Nat
  lastSeen : Option Nat
deriving DecidableEq

structure ConvRow where
  conversationId : Nat
  conversationName : Option String
  platform : String
  threadId : String
  firstMessageAt : Option Nat
  lastMessageAt : Option Nat
  messageCount : Nat
  isGroup : Bool
  participantCount : Nat
deriving DecidableEq

structure MsgRow where
  messageId : Nat
  platform : String
  platformMessageId : String
  conversationId : Nat
  senderId : Nat
  timestamp : Nat
  body : String
deriving DecidableEq

structure PartRow where
  conversationId : Nat
  contactId : Nat
  role : String
deriving DecidableEq

structure Db where
  contacts : List ContactRow
  conversations : List ConvRow
  messages : List MsgRow
  participants : List PartRow
  nextContactId : Nat
  nextConversationId : Nat
  nextMessageId : Nat
deriving DecidableEq

def emptyDb : Db := ⟨[], [], [], [], 1, 1, 1⟩

/-- Number of `messages` rows belonging to conversation `cid`. -/
def convMsgCount (db : Db) (cid : Nat) : Nat :=
  db.messages.countP (fun m => m.conversationId == cid)

/-- Number of `messages` rows with the de-duplication key
`(platform, platform_message_id)`. -/
def msgKeyCount (db : Db) (platform pmid : String) : Nat :=
  db.messages.countP (fun m => m.platform == platform && m.platformMessageId == pmid)

/-- Number of `conversation_participants` rows of conversation `cid`. -/
def convPartCount (db : Db) (cid : Nat) : Nat :=
  db.participants.countP (fun p => p.conversationId == cid)

/-- Trigger `update_conversation_timestamps` (AFTER INSERT ON messages):
bumps `message_count`, sets `last_message_at` to the new timestamp and
`first_message_at` to `COALESCE(first_message_at, NEW.timestamp)`. -/
def applyConversationTimestampsTrigger (db : Db) (m : MsgRow) : Db :=
  { db with conversations := db.conversations.map (fun c =>
      if c.conversationId = m.conversationId then
        { c with lastMessageAt := some m.timestamp,
                 messageCount := c.messageCount + 1,
                 firstMessageAt := some (c.firstMessageAt.getD m.timestamp) }
      else c) }

/-- Trigger `update_contact_stats` (AFTER INSERT ON messages): bumps the
sender's `message_count` and widens `first_seen`/`last_seen` (the SQL
sentinels 1970-01-01 and 9999-12-31 become the identity of max/min here). -/
def applyContactStatsTrigger (db : Db) (m : MsgRow) : Db :=
  { db with contacts := db.contacts.map (fun c =>
      if c.contactId = m.senderId then
        { c with lastSeen := some (max (c.lastSeen.getD 0) m.timestamp),
                 firstSeen := some (min (c.firstSeen.getD m.timestamp) m.timestamp),
                 messageCount := c.messageCount + 1 }
      else c) }

/-- Trigger `detect_group_conversation` (AFTER INSERT ON
conversation_participants): recomputes `participant_count` and `is_group`
from the participant rows. -/
def applyGroupTrigger (db : Db) (cid : Nat) : Db :=
  { db with conversations := db.conversations.map (fun c =>
      if c.conversationId = cid then
        { c with isGroup := decide (2 < convPartCount db cid),
                 participantCount := convPartCount db cid }
      else c) }

/-- `INSERT INTO messages ...` under `PRAGMA foreign_keys = ON`: `none` is
the `sqlite3.IntegrityError` raised on a duplicate
`(platform, platform_message_id)` key, a NULL `sender_id`, or a missing
foreign row; on success the AFTER INSERT triggers fire. -/
def insertMessageStmt (db : Db) (platform pmid : String) (convId : Nat)
    (senderId : Option Nat) (timestamp : Nat) (body : String) : Option Db :=
  match senderId with
  | none => none
  | some sid =>
    if db.messages.any (fun m => m.platform == platform && m.platformMessageId == pmid) then
      none
    else if !(db.conversations.any (fun c => c.conversationId == convId)) then none
    else if !(db.contacts.any (fun c => c.contactId == sid)) then none
    else
      let row : MsgRow := ⟨db.nextMessageId, platform, pmid, convId, sid, timestamp, body⟩
      let db1 := { db with messages := db.messages ++ [row],
                           nextMessageId := db.nextMessageId + 1 }
      some (applyContactStatsTrigger (applyConversationTimestampsTrigger db1 row) row)

/-- Outcome of a message insert as seen by the importers. -/
inductive InsertOutcome
  | inserted
  | skipped
deriving DecidableEq

/-- A message insert as issued by both importers: the surrounding
`try/except sqlite3.IntegrityError` turns the error into a logged skip, so
no error reaches the caller. -/
def importMessageRow (db : Db) (platform pmid : String) (convId : Nat)
    (senderId : Option Nat) (timestamp : Nat) (body : String) : Db × InsertOutcome :=
  match insertMessageStmt db platform pmid convId senderId timestamp body with
  | some db2 => (db2, .inserted)
  | none => (db, .skipped)

/-- `INSERT OR IGNORE INTO conversation_participants` plus the
`detect_group_conversation` trigger on an actual insert (callers only pass
ids of rows they just looked up or created, so foreign keys hold). -/
def insertParticipantStmt (db : Db) (convId contactId : Nat) (role : String) : Db :=
  if db.participants.any (fun p => p.conversationId == convId && p.contactId == contactId) then
    db
  else
    let db1 := { db with participants := db.participants ++ [⟨convId, contactId, role⟩] }
    applyGroupTrigger db1 convId

/-- `ChatDatabaseCreator._get_or_create_contact` /
`_get_or_create_whatsapp_contact` database part: look up by
`(platform, platform_id)`, else insert a fresh contact row. -/
def getOrCreateContact (db : Db) (displayName email phone : Option String)
    (platform platformId : String) (isMe : Bool) : Db × Nat :=
  match db.contacts.find? (fun c => c.platform == platform && c.platformId == platformId) with
  | some c => (db, c.contactId)
  | none =>
      let row : ContactRow :=
        ⟨db.nextContactId, displayName, email, phone, platform, platformId, isMe, 0, none, none⟩
      ({ db with contacts := db.contacts ++ [row],
                 nextContactId := db.nextContactId + 1 }, db.nextContactId)

/-- The `INSERT INTO conversations` of `ChatDatabaseCreator._create_conversation`:
explicit `first_message_at`, `last_message_at`, `is_group`,
`participant_count`; `message_count` is left to its schema DEFAULT 0. -/
def createConversationImessage (db : Db) (name : Option String) (threadId : String)
    (firstTs lastTs : Option Nat) (isGroup : Bool) (pc : Nat) : Db × Nat :=
  let row : ConvRow :=
    ⟨db.nextConversationId, name, "imessage", threadId, firstTs, lastTs, 0, isGroup, pc⟩
  ({ db with conversations := db.conversations ++ [row],
             nextConversationId := db.nextConversationId + 1 }, db.nextConversationId)

/-- The `INSERT INTO conversations` of
`WhatsAppDatabaseImporter.import_conversation`: explicitly seeds
`message_count` with `len(messages_list)` and `participant_count` with 2. -/
def createConversationWhatsapp (db : Db) (name : String) (threadId : String)
    (firstTs lastTs : Option Nat) (isGroup : Bool) (seedMessageCount : Nat) : Db × Nat :=
  let row : ConvRow :=
    ⟨db.nextConversationId, some name, "whatsapp", threadId, firstTs, lastTs,
     seedMessageCount, isGroup, 2⟩
  ({ db with conversations := db.conversations ++ [row],
             nextConversationId := db.nextConversationId + 1 }, db.nextConversationId)

theorem messages_applyConversationTimestampsTrigger (db : Db) (m : MsgRow) :
    (applyConversationTimestampsTrigger db m).messages = db.messages := rfl

theorem messages_applyContactStatsTrigger (db : Db) (m : MsgRow) :
    (applyContactStatsTrigger db m).messages = db.messages := rfl

/-- The message key predicate used by both `msgKeyCount` and the UNIQUE guard. -/
theorem msgKeyCount_pos_iff (db : Db) (platform pmid : String) :
    0 < msgKeyCount db platform pmid ↔
      db.messages.any
        (fun m => m.platform == platform && m.platformMessageId == pmid) = true := by
  rw [msgKeyCount, List.countP_pos_iff, List.any_eq_true]

/-- A duplicate key makes the import a no-op with a `skipped` outcome. -/
theorem importMessageRow_dup (db : Db) (platform pmid : String) (convId : Nat)
    (senderId : Option Nat) (ts : Nat) (body : String)
    (h : db.messages.any
      (fun m => m.platform == platform && m.platformMessageId == pmid) = true) :
    importMessageRow db platform pmid convId senderId ts body
      = (db, InsertOutcome.skipped) := by
  cases senderId with
  | none => rfl
  | some sid => simp [importMessageRow, insertMessageStmt, h]

/-- C3. Re-ingesting a message with an existing `(platform,
platform_message_id)` key is a silent no-op: inserting a record twice leaves
exactly one row for its key, the second insert returns the database
unchanged with a `skipped` outcome (no error: the importers catch
`sqlite3.IntegrityError`), and if the key is already present the very first
insert is already the no-op. This holds for any starting database whose key
count is at most 1 (the UNIQUE constraint keeps every reachable database
that way), so it covers re-ingestion within one run and across runs. -/
theorem message_insert_idempotent (db : Db) (platform pmid : String) (convId sid ts : Nat)
    (body : String)
    (hconv : db.conversations.any (fun c => c.conversationId == convId) = true)
    (hsender : db.contacts.any (fun c => c.contactId == sid) = true)
    (hkey : msgKeyCount db platform pmid ≤ 1) :
    msgKeyCount (importMessageRow db platform pmid convId (some sid) ts body).1 platform pmid
      = 1 ∧
    importMessageRow (importMessageRow db platform pmid convId (some sid) ts body).1
        platform pmid convId (some sid) ts body
      = ((importMessageRow db platform pmid convId (some sid) ts body).1,
         InsertOutcome.skipped) ∧
    (msgKeyCount db platform pmid = 1 →
      importMessageRow db platform pmid convId (some sid) ts body
        = (db, InsertOutcome.skipped)) := by
  by_cases hdup :
      db.messages.any
        (fun m => m.platform == platform && m.platformMessageId == pmid) = true
  · have h1 : importMessageRow db platform pmid convId (some sid) ts body
        = (db, InsertOutcome.skipped) := by
      simp [importMessageRow, insertMessageStmt, hdup]
    have hpos : 0 < msgKeyCount db platform pmid :=
      (msgKeyCount_pos_iff db platform pmid).2 hdup
    have hone : msgKeyCount db platform pmid = 1 := le_antisymm hkey hpos
    refine ⟨by rw [h1]; exact hone, ?_, fun _ => h1⟩
    rw [h1]
    simp [importMessageRow, insertMessageStmt, hdup]
  · have hzero : msgKeyCount db platform pmid = 0 := by
      by_contra hne
      exact hdup ((msgKeyCount_pos_iff db platform pmid).1 (Nat.pos_of_ne_zero hne))
    have hdupb :
        db.messages.any
          (fun m => m.platform == platform && m.platformMessageId == pmid) = false := by
      simpa using hdup
    have h1 : importMessageRow db platform pmid convId (some sid) ts body
        = (applyContactStatsTrigger
            (applyConversationTimestampsTrigger
              { db with
                  messages := db.messages ++
                    [⟨db.nextMessageId, platform, pmid, convId, sid, ts, body⟩],
                  nextMessageId := db.nextMessageId + 1 }
              ⟨db.nextMessageId, platform, pmid, convId, sid, ts, body⟩)
            ⟨db.nextMessageId, platform, pmid, convId, sid, ts, body⟩,
           InsertOutcome.inserted) := by
      simp [importMessageRow, insertMessageStmt, hdupb, hconv, hsender]
    have hmsgs :
        (importMessageRow db platform pmid convId (some sid) ts body).1.messages
          = db.messages ++
            [⟨db.nextMessageId, platform, pmid, convId, sid, ts, body⟩] := by
      rw [h1]
      rfl
    have hcount :
        msgKeyCount (importMessageRow db platform pmid convId (some sid) ts body).1
          platform pmid = 1 := by
      rw [msgKeyCount, hmsgs, List.countP_append]
      have : msgKeyCount db platform pmid = 0 := hzero
      rw [msgKeyCount] at this
      rw [this]
      simp [List.countP_cons]
    have hdup2 :
        (importMessageRow db platform pmid convId (some sid) ts body).1.messages.any
          (fun m => m.platform == platform && m.platformMessageId == pmid) = true := by
      rw [hmsgs]
      simp [List.any_append]
    refine ⟨hcount, ?_, fun h => absurd (hzero ▸ h) (by decide)⟩
    exact importMessageRow_dup _ _ _ _ _ _ _ hdup2

/-- Witness for C3: a database holding one conversation and one contact;
ingesting the same message key twice leaves exactly one row. -/
theorem message_insert_idempotent_witness :
    msgKeyCount
      (importMessageRow
        (getOrCreateContact
          (createConversationImessage emptyDb (some "A") "chat1" none none false 2).1
          (some "Bob") none none "imessage" "bob" false).1
        "imessage" "m1" 1 (some 1) 5 "hi").1 "imessage" "m1" = 1 :=
  (message_insert_idempotent
    (getOrCreateContact
      (createConversationImessage emptyDb (some "A") "chat1" none none false 2).1
      (some "Bob") none none "imessage" "bob" false).1
    "imessage" "m1" 1 1 5 "hi" (by decide) (by decide) (by decide)).1

/-! ## Ingest operation sequences and the aggregate-consistency invariant -/

/-- One primitive write issued by the ingestion paths against the projector. -/
inductive IngestOp
  /-- `_create_conversation` insert (iMessage path, `message_count` DEFAULT 0). -/
  | createConvI (name : Option String) (threadId : String)
      (firstTs lastTs : Option Nat) (isGroup : Bool) (pc : Nat)
  /-- WhatsApp `import_conversation` insert (`message_count` seeded). -/
  | createConvW (name : String) (threadId : String)
      (firstTs lastTs : Option Nat) (isGroup : Bool) (seed : Nat)
  /-- `_get_or_create_contact`. -/
  | newContact (displayName email phone : Option String)
      (platform platformId : String) (isMe : Bool)
  /-- Message insert through the importers' `try/except IntegrityError`. -/
  | insertMsg (platform pmid : String) (convId : Nat) (senderId : Option Nat)
      (ts : Nat) (body : String)
  /-- `INSERT OR IGNORE INTO conversation_participants`. -/
  | insertPart (convId contactId : Nat) (role : String)
deriving DecidableEq

def applyIngestOp (db : Db) : IngestOp → Db
  | .createConvI name threadId f l g pc =>
      (createConversationImessage db name threadId f l g pc).1
  | .createConvW name threadId f l g seed =>
      (createConversationWhatsapp db name threadId f l g seed).1
  | .newContact dn email phone platform pid isMe =>
      (getOrCreateContact db dn email phone platform pid isMe).1
  | .insertMsg platform pmid convId senderId ts body =>
      (importMessageRow db platform pmid convId senderId ts body).1
  | .insertPart convId contactId role => insertParticipantStmt db convId contactId role

def applyIngestOps (db : Db) (ops : List IngestOp) : Db := ops.foldl applyIngestOp db

/-- Whether the operation seeds `message_count` explicitly (only the WhatsApp
conversation insert does). -/
def IngestOp.seedsMessageCount : IngestOp → Bool
  | .createConvW _ _ _ _ _ _ => true
  | _ => false

/-- Invariant tying the trigger-maintained `message_count` to the actual
message rows, together with the freshness and foreign-key facts that keep it
inductive. -/
structure DbInv (db : Db) : Prop where
  counts : ∀ c ∈ db.conversations, c.messageCount = convMsgCount db c.conversationId
  convFresh : ∀ c ∈ db.conversations, c.conversationId < db.nextConversationId
  msgFk : ∀ m ∈ db.messages, ∃ c ∈ db.conversations, c.conversationId = m.conversationId

theorem dbInv_empty : DbInv emptyDb := by
  constructor <;> intro x hx <;> simp [emptyDb] at hx

theorem dbInv_createConvI (db : Db) (name : Option String) (threadId : String)
    (f l : Option Nat) (g : Bool) (pc : Nat) (h : DbInv db) :
    DbInv (createConversationImessage db name threadId f l g pc).1 := by
  classical
  constructor
  · intro c hc
    simp only [createConversationImessage, List.mem_append, List.mem_singleton] at hc
    rcases hc with hc | hc
    · have := h.counts c hc
      simpa [convMsgCount, createConversationImessage] using this
    · subst hc
      simp only [convMsgCount, createConversationImessage]
      rw [eq_comm, List.countP_eq_zero]
      intro m hm
      rcases h.msgFk m hm with ⟨c0, hc0, hid⟩
      have hlt := h.convFresh c0 hc0
      simp only [beq_iff_eq]
      omega
  · intro c hc
    simp only [createConversationImessage, List.mem_append, List.mem_singleton] at hc
    rcases hc with hc | hc
    · have := h.convFresh c hc
      simp only [createConversationImessage]
      omega
    · subst hc
      simp [createConversationImessage]
  · intro m hm
    simp only [createConversationImessage] at hm ⊢
    rcases h.msgFk m hm with ⟨c0, hc0, hid⟩
    exact ⟨c0, List.mem_append_left _ hc0, hid⟩

theorem dbInv_newContact (db : Db) (dn email phone : Option String)
    (platform pid : String) (isMe : Bool) (h : DbInv db) :
    DbInv (getOrCreateContact db dn email phone platform pid isMe).1 := by
  unfold getOrCreateContact
  cases hfind : db.contacts.find? (fun c => c.platform == platform && c.platformId == pid) with
  | some c => exact h
  | none =>
      constructor
      · intro c hc
        have := h.counts c hc
        simpa [convMsgCount] using this
      · intro c hc
        exact h.convFresh c hc
      · intro m hm
        exact h.msgFk m hm

theorem dbInv_insertPart (db : Db) (convId contactId : Nat) (role : String) (h : DbInv db) :
    DbInv (insertParticipantStmt db convId contactId role) := by
  unfold insertParticipantStmt
  by_cases hdup :
      db.participants.any (fun p => p.conversationId == convId && p.contactId == contactId)
        = true
  · simpa [hdup] using h
  · have hdup' :
        db.participants.any
          (fun p => p.conversationId == convId && p.contactId == contactId) = false := by
      simpa using hdup
    simp only [hdup', Bool.false_eq_true, if_false]
    constructor
    · intro c hc
      simp only [applyGroupTrigger, List.mem_map] at hc
      rcases hc with ⟨c0, hc0, hcc⟩
      by_cases hid : c0.conversationId = convId
      · rw [if_pos hid] at hcc
        subst hcc
        have := h.counts c0 hc0
        simpa [convMsgCount] using this
      · rw [if_neg hid] at hcc
        subst hcc
        have := h.counts c0 hc0
        simpa [convMsgCount] using this
    · intro c hc
      simp only [applyGroupTrigger, List.mem_map] at hc
      rcases hc with ⟨c0, hc0, hcc⟩
      have := h.convFresh c0 hc0
      by_cases hid : c0.conversationId = convId
      · rw [if_pos hid] at hcc; subst hcc; simpa [applyGroupTrigger] using this
      · rw [if_neg hid] at hcc; subst hcc; simpa [applyGroupTrigger] using this
    · intro m hm
      simp only [applyGroupTrigger] at hm ⊢
      rcases h.msgFk m hm with ⟨c0, hc0, hid⟩
      by_cases hcid : c0.conversationId = convId
      · refine ⟨_, List.mem_map_of_mem _ hc0, ?_⟩
        rw [if_pos hcid]
        simpa using hid
      · refine ⟨_, List.mem_map_of_mem _ hc0, ?_⟩
        rw [if_neg hcid]
        exact hid

theorem dbInv_insertMsg_inserted (db : Db) (platform pmid : String) (convId sid ts : Nat)
    (body : String)
    (hconv : db.conversations.any (fun c => c.conversationId == convId) = true)
    (h : DbInv db) :
    DbInv (applyContactStatsTrigger
      (applyConversationTimestampsTrigger
        { db with
            messages := db.messages ++
              [⟨db.nextMessageId, platform, pmid, convId, sid, ts, body⟩],
            nextMessageId := db.nextMessageId + 1 }
        ⟨db.nextMessageId, platform, pmid, convId, sid, ts, body⟩)
      ⟨db.nextMessageId, platform, pmid, convId, sid, ts, body⟩) := by
  set row : MsgRow := ⟨db.nextMessageId, platform, pmid, convId, sid, ts, body⟩ with hrow
  constructor
  · intro c hc
    simp only [applyContactStatsTrigger, applyConversationTimestampsTrigger,
      List.mem_map] at hc
    rcases hc with ⟨c0, hc0, hcc⟩
    have hcount := h.counts c0 hc0
    by_cases hid : c0.conversationId = row.conversationId
    · rw [if_pos hid] at hcc
      subst hcc
      simp only [convMsgCount, applyContactStatsTrigger,
        applyConversationTimestampsTrigger, List.countP_append]
      have hrowm : (row.conversationId == c0.conversationId) = true := by
        simp [hid]
      rw [convMsgCount] at hcount
      simp [List.countP_cons, hrowm, hcount]
    · rw [if_neg hid] at hcc
      subst hcc
      simp only [convMsgCount, applyContactStatsTrigger,
        applyConversationTimestampsTrigger, List.countP_append]
      have hrowm : (row.conversationId == c0.conversationId) = false := by
        simp only [beq_eq_false_iff_ne, ne_eq]
        exact fun hcontra => hid hcontra.symm
      rw [convMsgCount] at hcount
      simp [List.countP_cons, hrowm, hcount]
  · intro c hc
    simp only [applyContactStatsTrigger, applyConversationTimestampsTrigger,
      List.mem_map] at hc
    rcases hc with ⟨c0, hc0, hcc⟩
    have := h.convFresh c0 hc0
    by_cases hid : c0.conversationId = row.conversationId
    · rw [if_pos hid] at hcc; subst hcc; simpa using this
    · rw [if_neg hid] at hcc; subst hcc; simpa using this
  · intro m hm
    simp only [applyContactStatsTrigger, applyConversationTimestampsTrigger,
      List.mem_append, List.mem_singleton] at hm
    rcases hm with hm | hm
    · rcases h.msgFk m hm with ⟨c0, hc0, hid⟩
      by_cases hcid : c0.conversationId = row.conversationId
      · refine ⟨_, List.mem_map_of_mem _ hc0, ?_⟩
        rw [if_pos hcid]
        simpa using hid
      · refine ⟨_, List.mem_map_of_mem _ hc0, ?_⟩
        rw [if_neg hcid]
        exact hid
    · subst hm
      rcases List.any_eq_true.1 hconv with ⟨c0, hc0, hcid⟩
      have hcid2 : c0.conversationId = convId := by simpa using hcid
      by_cases hc0r : c0.conversationId = row.conversationId
      · refine ⟨_, List.mem_map_of_mem _ hc0, ?_⟩
        rw [if_pos hc0r]
        simpa using hcid2
      · exact absurd hcid2 hc0r

theorem dbInv_insertMsg (db : Db) (platform pmid : String) (convId : Nat)
    (senderId : Option Nat) (ts : Nat) (body : String) (h : DbInv db) :
    DbInv (importMessageRow db platform pmid convId senderId ts body).1 := by
  cases senderId with
  | none => exact h
  | some sid =>
      by_cases hdup :
          db.messages.any
            (fun m => m.platform == platform && m.platformMessageId == pmid) = true
      · rw [importMessageRow_dup _ _ _ _ _ _ _ hdup]
        exact h
      · have hdupb :
            db.messages.any
              (fun m => m.platform == platform && m.platformMessageId == pmid) = false := by
          simpa using hdup
        by_cases hconv :
            db.conversations.any (fun c => c.conversationId == convId) = true
        · by_cases hsid : db.contacts.any (fun c => c.contactId == sid) = true
          · have heq : importMessageRow db platform pmid convId (some sid) ts body
                = (applyContactStatsTrigger
                    (applyConversationTimestampsTrigger
                      { db with
                          messages := db.messages ++
                            [⟨db.nextMessageId, platform, pmid, convId, sid, ts, body⟩],
                          nextMessageId := db.nextMessageId + 1 }
                      ⟨db.nextMessageId, platform, pmid, convId, sid, ts, body⟩)
                    ⟨db.nextMessageId, platform, pmid, convId, sid, ts, body⟩,
                   InsertOutcome.inserted) := by
              simp [importMessageRow, insertMessageStmt, hdupb, hconv, hsid]
            rw [heq]
            exact dbInv_insertMsg_inserted db platform pmid convId sid ts body hconv h
          · have heq : importMessageRow db platform pmid convId (some sid) ts body
                = (db, InsertOutcome.skipped) := by
              simp [importMessageRow, insertMessageStmt, hdupb, hconv, hsid]
            rw [heq]
            exact h
        · have heq : importMessageRow db platform pmid convId (some sid) ts body
              = (db, InsertOutcome.skipped) := by
            simp [importMessageRow, insertMessageStmt, hdupb, hconv]
          rw [heq]
          exact h

theorem dbInv_applyIngestOps (ops : List IngestOp) :
    ∀ db : Db, (∀ op ∈ ops, op.seedsMessageCount = false) → DbInv db →
      DbInv (applyIngestOps db ops) := by
  induction ops with
  | nil => intro db _ h; exact h
  | cons op rest ih =>
      intro db hops h
      have hop := hops op (List.mem_cons_self op rest)
      have hrest : ∀ o ∈ rest, o.seedsMessageCount = false :=
        fun o ho => hops o (List.mem_cons_of_mem op ho)
      have hstep : DbInv (applyIngestOp db op) := by
        cases op with
        | createConvI name threadId f l g pc => exact dbInv_createConvI db name threadId f l g pc h
        | createConvW name threadId f l g seed => cases hop
        | newContact dn email phone platform pid isMe =>
            exact dbInv_newContact db dn email phone platform pid isMe h
        | insertMsg platform pmid convId senderId ts body =>
            exact dbInv_insertMsg db platform pmid convId senderId ts body h
        | insertPart convId contactId role => exact dbInv_insertPart db convId contactId role h
      exact ih (applyIngestOp db op) hrest hstep

/-- C6 amended: after any sequence of ingest writes in which every
conversation row is created by the iMessage path (which leaves
`message_count` to its DEFAULT 0 for the triggers to maintain),
`conversations.message_count` equals the number of `messages` rows with that
`conversation_id`. The WhatsApp conversation insert seeds `message_count`
with the source message count and is excluded (see the counterexample). -/
theorem message_count_matches_rows (ops : List IngestOp)
    (h : ∀ op ∈ ops, op.seedsMessageCount = false) :
    ((applyIngestOps emptyDb ops).conversations.all
      (fun c => c.messageCount == convMsgCount (applyIngestOps emptyDb ops) c.conversationId))
      = true := by
  rw [List.all_eq_true]
  intro c hc
  have := (dbInv_applyIngestOps ops emptyDb h dbInv_empty).counts c hc
  simpa using this

/-- Witness for C6 amended: create an iMessage conversation and a contact,
link the participant and ingest two messages; the conversation row then
carries `message_count = 2` matching the two message rows. -/
theorem message_count_matches_rows_witness :
    ((applyIngestOps emptyDb
        [IngestOp.createConvI (some "A") "chat1" none none false 2,
         IngestOp.newContact (some "Bob") none none "imessage" "bob" false,
         IngestOp.insertPart 1 1 "member",
         IngestOp.insertMsg "imessage" "m1" 1 (some 1) 5 "hi",
         IngestOp.insertMsg "imessage" "m2" 1 (some 1) 6 "yo"]).conversations.all
      (fun c => c.messageCount ==
        convMsgCount
          (applyIngestOps emptyDb
            [IngestOp.createConvI (some "A") "chat1" none none false 2,
             IngestOp.newContact (some "Bob") none none "imessage" "bob" false,
             IngestOp.insertPart 1 1 "member",
             IngestOp.insertMsg "imessage" "m1" 1 (some 1) 5 "hi",
             IngestOp.insertMsg "imessage" "m2" 1 (some 1) 6 "yo"])
          c.conversationId)) = true :=
  message_count_matches_rows _ (by decide)

/-! ## WhatsApp import path (`WhatsAppDatabaseImporter`) -/

/-- Characters of `s.split(sep)[0]` for a one-character separator. -/
def takeUntilChar (c : Char) : List Char → List Char
  | [] => []
  | d :: t => if d == c then [] else d :: takeUntilChar c t

/-- Python `s.split(c)[0]`. -/
def pySplitHead (s : String) (c : Char) : String := ⟨takeUntilChar c s.data⟩

/-- Fuel-driven body of `str.replace`: left-to-right, non-overlapping. -/
def replaceSeqAux (pat repl : List Char) : Nat → List Char → List Char
  | 0, hay => hay
  | _ + 1, [] => []
  | fuel + 1, c :: t =>
      if !pat.isEmpty && leadsWith (c :: t) pat then
        repl ++ replaceSeqAux pat repl fuel (t.drop (pat.length - 1))
      else c :: replaceSeqAux pat repl fuel t

/-- Python `s.replace(pat, repl)` (each step consumes at least one character,
so the length of the string is enough fuel). -/
def pyReplace (s pat repl : String) : String :=
  ⟨replaceSeqAux pat.data repl.data s.data.length s.data⟩

/-- One message produced by the WhatsApp Chat Exporter, with the fields
`import_conversation` reads; `timestamp = 0` plays the Python falsy
`None`/`0` timestamp. -/
structure WaMsg where
  fromMe : Bool
  timestamp : Nat
  keyId : Option String
  sender : Option String
  data : Option String
  media : Bool
  meta : Bool
  caption : Option String
  reply : Option String
deriving DecidableEq

/-- Stable insertion keeping an ascending order by timestamp. -/
def sortInsertWa (m : WaMsg) : List WaMsg → List WaMsg
  | [] => [m]
  | x :: xs => if m.timestamp ≤ x.timestamp then m :: x :: xs else x :: sortInsertWa m xs

/-- `messages_list.sort(key=lambda m: m.timestamp if m.timestamp else 0)`:
a stable ascending sort by timestamp (on `Nat` the falsy-0 key is the
timestamp itself). -/
def sortByTimestamp : List WaMsg → List WaMsg
  | [] => []
  | x :: xs => sortInsertWa x (sortByTimestamp xs)

/-- Add to a Python set, modelled as a first-occurrence list (the claims only
use the cardinality, which does not depend on iteration order). -/
def insertUnique (l : List String) (s : String) : List String :=
  if l.contains s then l else l ++ [s]

/-- The participant-collection loop shared by `_count_participants` and
`import_participants`: distinct sender names plus a flag for `me`. -/
def waParticipantNames (chatId : String) (name : Option String) (msgs : List WaMsg) :
    List String × Bool :=
  msgs.foldl
    (fun acc m =>
      if m.fromMe then (acc.1, true)
      else if pyTruthy m.sender then (insertUnique acc.1 (m.sender.getD ""), acc.2)
      else if pyTruthy name then (insertUnique acc.1 (name.getD ""), acc.2)
      else if pyInStr "@s.whatsapp.net" chatId then
        (insertUnique acc.1 (pySplitHead chatId '@'), acc.2)
      else if pyInStr "@g.us" chatId then (insertUnique acc.1 chatId, acc.2)
      else acc)
    ([], false)

/-- `WhatsAppDatabaseImporter._count_participants`. -/
def countParticipants (chatId : String) (name : Option String) (msgs : List WaMsg) : Nat :=
  let r := waParticipantNames chatId name msgs
  r.1.length + (if r.2 then 1 else 0)

/-- `WhatsAppDatabaseImporter._extract_message_body`. -/
def extractMessageBody (m : WaMsg) : String :=
  let body :=
    if pyTruthy m.data then m.data.getD ""
    else if m.meta then "[Metadata]"
    else if m.media then
      if pyTruthy m.caption then "[Media] " ++ m.caption.getD "" else "[Media]"
    else "[Empty message]"
  let body := pyReplace body "<br>" " "
  ⟨body.data.take 10000⟩

/-- `WhatsAppDatabaseImporter._get_or_create_whatsapp_contact`. -/
def getOrCreateWhatsappContact (db : Db) (participant chatId : String)
    (name : Option String) : Db × Nat :=
  let isMe := participant == "me"
  let info : Option String × Option String × Option String :=
    if isMe then (some "me", some "Me", none)
    else if pyInStr "@" chatId then
      let phone :=
        if pyInStr "@s.whatsapp.net" chatId then some (pySplitHead chatId '@')
        else if pyInStr "@g.us" chatId then some chatId
        else none
      let pid :=
        if pyInStr "@s.whatsapp.net" chatId then some chatId
        else if pyInStr "@g.us" chatId then some chatId
        else none
      let dn : Option String :=
        if participant ≠ "" then some participant
        else if pyTruthy name then name
        else phone
      (pid, dn, phone)
    else
      let pid := if participant ≠ "" then participant else chatId
      let dn := if participant ≠ "" then participant else chatId
      let phone :=
        if participant ≠ "" && pyIsDigit ⟨participant.data.filter (fun c => !(c == '+'))⟩ then
          some participant
        else none
      (some pid, some dn, phone)
  let platformId := match info.1 with
    | some p => if p = "" then chatId else p
    | none => chatId
  getOrCreateContact db info.2.1 none info.2.2 "whatsapp" platformId isMe

/-- `WhatsAppDatabaseImporter.import_participants`. -/
def importWaParticipants (db : Db) (convId : Nat) (chatId : String)
    (name : Option String) (msgs : List WaMsg) : Db :=
  let r := waParticipantNames chatId name msgs
  let allNames := if r.2 then "me" :: r.1 else r.1
  allNames.foldl
    (fun db p =>
      let r := getOrCreateWhatsappContact db p chatId name
      insertParticipantStmt r.1 convId r.2 "member")
    db

/-- `WhatsAppDatabaseImporter.import_messages`; `now` stands for the
`datetime.now()` fallback timestamp. -/
def importWaMessages (db : Db) (convId : Nat) (chatId : String) (msgs : List WaMsg)
    (now : Nat) : Db :=
  let pmap : List (String × Nat) :=
    (db.participants.filter (fun p => p.conversationId == convId)).filterMap
      (fun pr =>
        (db.contacts.find? (fun c => c.contactId == pr.contactId)).map
          (fun c => (c.platformId, c.contactId)))
  let meId := (pmap.find? (fun e => e.1 == "me")).map (fun e => e.2)
  msgs.foldl
    (fun db m =>
      let senderId : Option Nat :=
        if m.fromMe then meId
        else
          let s0 : Option Nat :=
            if pyTruthy m.sender then
              (pmap.find?
                (fun e => pyInStr (m.sender.getD "") e.1 || pyInStr e.1 (m.sender.getD ""))).map
                (fun e => e.2)
            else none
          match s0 with
          | some c => some c
          | none =>
              if pyInStr "@s.whatsapp.net" chatId then
                ((pmap.filter (fun e => !(e.1 == "me"))).head?).map (fun e => e.2)
              else none
      if !m.fromMe && senderId.isNone then db
      else
        let body := extractMessageBody m
        let pmid := if pyTruthy m.keyId then m.keyId.getD "" else "wa_" ++ toString m.timestamp
        let ts :=
          if m.timestamp ≠ 0 then
            if 9999999999 < m.timestamp then m.timestamp / 1000 else m.timestamp
          else now
        (importMessageRow db "whatsapp" pmid convId senderId ts body).1)
    db

/-- `WhatsAppDatabaseImporter.import_conversation`: empty chats are skipped,
chats whose participant count exceeds 7 are skipped before any write, the
conversation row is found or created (seeding `message_count`), then
participants and messages are imported. -/
def whatsappImportConversation (db : Db) (chatId : String) (name : Option String)
    (msgs : List WaMsg) (now : Nat) : Db :=
  if msgs.isEmpty then db
  else
    let sorted := sortByTimestamp msgs
    let pc := countParticipants chatId name sorted
    if 7 < pc then db
    else
      let firstTs := match sorted.head? with
        | some m => if m.timestamp ≠ 0 then some m.timestamp else none
        | none => none
      let lastTs := match sorted.getLast? with
        | some m => if m.timestamp ≠ 0 then some m.timestamp else none
        | none => none
      let found := db.conversations.find?
        (fun c => c.platform == "whatsapp" && c.threadId == chatId)
      let r : Db × Nat := match found with
        | some c => (db, c.conversationId)
        | none =>
            createConversationWhatsapp db (pyOrStr name chatId) chatId firstTs lastTs
              (pyInStr "@g.us" chatId) msgs.length
      let db2 := importWaParticipants r.1 r.2 chatId name sorted
      importWaMessages db2 r.2 chatId sorted now

/-! ## iMessage import path (`ChatDatabaseCreator`) -/

/-- One participant dict built by `_extract_participants`. -/
structure ImParticipant where
  platformId : String
  displayName : String
  email : Option String
  phone : Option String
  isMe : Bool
deriving DecidableEq

/-- One message dict parsed from an HTML export, with the fields the import
writes into the modelled columns. -/
structure ImMsg where
  timestamp : Nat
  sender : String
  body : String
  isSent : Bool
  platformMessageId : String
deriving DecidableEq

/-- `ChatDatabaseCreator._create_conversation`: derives the conversation
name and first/last timestamps, then issues the conversations insert. -/
def imessageCreateConversation (db : Db) (convId : String)
    (parts : List ImParticipant) (msgs : List ImMsg) : Db × Nat :=
  let convName :=
    if 2 < parts.length then pySplitHead convId ','
    else
      match parts.filter (fun p => !p.isMe) with
      | [] => convId
      | p :: _ => p.displayName
  let ts := msgs.filterMap (fun m => if m.timestamp ≠ 0 then some m.timestamp else none)
  createConversationImessage db (some convName) convId ts.min? ts.max?
    (decide (2 < parts.length)) parts.length

/-- Dict assignment `d[k] = v` on an insertion-ordered association list. -/
def assocSet (l : List (String × Nat)) (key : String) (v : Nat) : List (String × Nat) :=
  if l.any (fun e => e.1 == key) then
    l.map (fun e => if e.1 == key then (key, v) else e)
  else l ++ [(key, v)]

/-- `ChatDatabaseCreator._import_messages`: links every participant to the
conversation, then inserts each message after resolving its sender (the
`participant_ids` dict, substring matching, and the `sender_<name>` fallback
contact). -/
def imessageImportMessages (db : Db) (convId : Nat) (parts : List ImParticipant)
    (msgs : List ImMsg) : Db :=
  let r :=
    parts.foldl
      (fun (acc : Db × List (String × Nat)) p =>
        let rc := getOrCreateContact acc.1 (some p.displayName) p.email p.phone
          "imessage" p.platformId p.isMe
        (insertParticipantStmt rc.1 convId rc.2 "member", assocSet acc.2 p.platformId rc.2))
      (db, [])
  let pmap := r.2
  msgs.foldl
    (fun db m =>
      let s0 : Option Nat :=
        if m.sender == "Me" || m.isSent then
          (pmap.find? (fun e => e.1 == "me")).map (fun e => e.2)
        else
          (pmap.find? (fun e => pyInStr e.1 m.sender || pyInStr m.sender e.1)).map
            (fun e => e.2)
      let rs : Db × Nat := match s0 with
        | some c => (db, c)
        | none =>
            getOrCreateContact db (some m.sender) none none "imessage"
              ("sender_" ++ m.sender) false
      (importMessageRow rs.1 "imessage" m.platformMessageId convId (some rs.2)
        m.timestamp m.body).1)
    r.1

/-- The per-conversation iMessage import performed by
`process_imessage_exports`: create the conversation row, then import
participants and messages. No participant-count ceiling is applied. -/
def imessageProcessConversation (db : Db) (convId : String)
    (parts : List ImParticipant) (msgs : List ImMsg) : Db :=
  let r := imessageCreateConversation db convId parts msgs
  imessageImportMessages r.1 r.2 parts msgs

/-- C6 counterexample: one WhatsApp chat with a single message. The WhatsApp
path seeds the new conversation row with `message_count = len(messages_list)
= 1` and the message-insert trigger then increments it, so the row ends with
`message_count = 2` while exactly one `messages` row has its
`conversation_id`: the aggregate-consistency claim fails after this ingest
sequence. -/
theorem whatsapp_message_count_double_counts :
    (whatsappImportConversation emptyDb "555@s.whatsapp.net" (some "Alice")
        [⟨false, 5, some "k1", some "Alice", some "hello", false, false, none, none⟩]
        0).conversations.map
      (fun c => (c.messageCount,
        convMsgCount
          (whatsappImportConversation emptyDb "555@s.whatsapp.net" (some "Alice")
            [⟨false, 5, some "k1", some "Alice", some "hello", false, false, none, none⟩]
            0)
          c.conversationId))
      = [(2, 1)] := by decide

/-- C8 counterexample: a conversation with 8 distinct participants imported
through the iMessage path (`_create_conversation` + `_import_messages`,
which apply no participant ceiling) is not excluded: its conversation row is
written with `participant_count = 8`, all 8 participant links are written,
and its message is written. -/
theorem large_group_not_excluded_on_imessage_path :
    (imessageProcessConversation emptyDb "p1,p2"
        (["p1", "p2", "p3", "p4", "p5", "p6", "p7", "p8"].map
          (fun s => (⟨s, s, none, none, false⟩ : ImParticipant)))
        [⟨10, "p1", "hello", false, "g1"⟩]) ≠ emptyDb ∧
    (imessageProcessConversation emptyDb "p1,p2"
        (["p1", "p2", "p3", "p4", "p5", "p6", "p7", "p8"].map
          (fun s => (⟨s, s, none, none, false⟩ : ImParticipant)))
        [⟨10, "p1", "hello", false, "g1"⟩]).conversations.map
      (fun c => c.participantCount) = [8] ∧
    (imessageProcessConversation emptyDb "p1,p2"
        (["p1", "p2", "p3", "p4", "p5", "p6", "p7", "p8"].map
          (fun s => (⟨s, s, none, none, false⟩ : ImParticipant)))
        [⟨10, "p1", "hello", false, "g1"⟩]).participants.length = 8 ∧
    (imessageProcessConversation emptyDb "p1,p2"
        (["p1", "p2", "p3", "p4", "p5", "p6", "p7", "p8"].map
          (fun s => (⟨s, s, none, none, false⟩ : ImParticipant)))
        [⟨10, "p1", "hello", false, "g1"⟩]).messages.length = 1 := by
  refine ⟨?_, by decide, by decide, by decide⟩
  intro h
  have := congrArg (fun db : Db => db.conversations.length) h
  revert this
  decide

/-- C8 amended: only the WhatsApp importer enforces the 7-participant
ceiling, and there it does hold before any write: whenever the counted
participants of the (sorted) chat exceed 7, `import_conversation` returns
with the database completely unchanged — no conversations, participants, or
messages rows. -/
theorem whatsapp_large_group_excluded (db : Db) (chatId : String) (name : Option String)
    (msgs : List WaMsg) (now : Nat)
    (h : 7 < countParticipants chatId name (sortByTimestamp msgs)) :
    whatsappImportConversation db chatId name msgs now = db := by
  unfold whatsappImportConversation
  cases he : msgs.isEmpty <;> simp [he, h]

/-- Witness for C8 amended: a WhatsApp group with 8 distinct senders is
skipped entirely. -/
theorem whatsapp_large_group_excluded_witness :
    whatsappImportConversation emptyDb "g1@g.us" (some "Group")
      ((List.range 8).map (fun i =>
        ⟨false, i + 1, some ("k" ++ toString i), some ("s" ++ toString i), some "x",
         false, false, none, none⟩))
      0 = emptyDb :=
  whatsapp_large_group_excluded emptyDb "g1@g.us" (some "Group") _ 0 (by decide)

/-! ## Chunked processing engine (`ChunkedProcessor.process_chunked`)

Items are identified by their `get_item_id` value, modelled as `Nat` (the
extraction function is a constructor parameter of the processor, so taking
the item to be its id loses nothing). One call of `process_func` either
returns a non-None result, returns None, or raises. The durable writes of a
run — `save_checkpoint` rewriting the checkpoint file with the progress
snapshot, and `save_results` appending result lines — are recorded as an
event trace, so an interruption point is a prefix of the trace. The two
wall-clock text fields of `ChunkProgress` are omitted. -/

/-- Result of one `process_func(item)` call. -/
inductive ProcResult
  | ok (r : Nat)
  | noneResult
  | raised
deriving DecidableEq

/-- `ChunkProgress` (the persisted checkpoint payload). -/
structure ChunkProgress where
  total_items : Nat
  processed_items : Nat
  successful_items : Nat
  failed_items : Nat
  skipped_items : Nat
  current_chunk : Nat
  total_chunks : Nat
  processed_ids : List Nat
  failed_ids : List Nat
deriving DecidableEq

def freshProgress : ChunkProgress := ⟨0, 0, 0, 0, 0, 0, 0, [], []⟩

/-- One durable write performed during a run. -/
inductive SaveEvent
  /-- `save_checkpoint`: the checkpoint file now holds this progress. -/
  | checkpoint (p : ChunkProgress)
  /-- `save_results(batch)`: these result values are appended to the
  results file. -/
  | results (rs : List Nat)
deriving DecidableEq

/-- Constructor arguments of `ChunkedProcessor`. -/
structure ProcCfg where
  chunk_size : Nat
  save_interval : Nat
  isolated_errors : Bool
  resume : Bool
deriving DecidableEq

/-- The loop state of `process_chunked`: the progress object, the
accumulated return value `chunk_results`, the pending `current_chunk`,
`item_count`, the durable-event trace, the items passed to `process_func`,
and whether the run aborted (isolated_errors=False path). -/
structure RunState where
  progress : ChunkProgress
  chunk_results : List Nat
  current_chunk : List Nat
  item_count : Nat
  events : List SaveEvent
  calls : List Nat
  aborted : Bool
deriving DecidableEq

/-- Lines 252-267: once `item_count` reaches the chunk size, bump
`current_chunk`, persist the checkpoint, and only then flush the pending
partial results (when there are any). -/
def chunkBoundary (cfg : ProcCfg) (st : RunState) : RunState :=
  if cfg.chunk_size ≤ st.item_count then
    let prog := { st.progress with current_chunk := st.progress.current_chunk + 1 }
    let events := st.events ++ [SaveEvent.checkpoint prog]
    if st.current_chunk.isEmpty then
      { st with progress := prog, events := events, item_count := 0 }
    else
      { st with progress := prog,
                events := events ++ [SaveEvent.results st.current_chunk],
                current_chunk := [], item_count := 0 }
  else st

/-- Lines 211-223: a non-None result is appended to the pending chunk and
the return value, the id is recorded in `processed_ids`, and once the
pending chunk reaches `save_interval` its last `save_interval` entries
(Python `current_chunk[-save_interval:]`, the whole list when
`save_interval` is 0) are flushed. -/
def stepOk (cfg : ProcCfg) (st : RunState) (item r : Nat) : RunState :=
  let st := { st with calls := st.calls ++ [item] }
  let current := st.current_chunk ++ [r]
  let prog := { st.progress with
    successful_items := st.progress.successful_items + 1,
    processed_ids := st.progress.processed_ids ++ [item] }
  let fired := cfg.save_interval ≤ current.length
  let batch :=
    if cfg.save_interval = 0 then current
    else current.drop (current.length - cfg.save_interval)
  let events := if fired then st.events ++ [SaveEvent.results batch] else st.events
  let current := if fired then [] else current
  let prog := { prog with processed_items := prog.processed_items + 1 }
  chunkBoundary cfg
    { st with progress := prog, chunk_results := st.chunk_results ++ [r],
              current_chunk := current, events := events,
              item_count := st.item_count + 1 }

/-- Lines 224-228: a None result only counts as skipped and processed. -/
def stepNone (cfg : ProcCfg) (st : RunState) (item : Nat) : RunState :=
  let st := { st with calls := st.calls ++ [item] }
  let prog := { st.progress with
    skipped_items := st.progress.skipped_items + 1 }
  let prog := { prog with processed_items := prog.processed_items + 1 }
  chunkBoundary cfg { st with progress := prog, item_count := st.item_count + 1 }

/-- Lines 236-250: an exception records the failure; with isolated errors the
loop continues (skipping the chunk-boundary block via `continue`), otherwise
the checkpoint is persisted and the run aborts. -/
def stepRaised (cfg : ProcCfg) (st : RunState) (item : Nat) : RunState :=
  let st := { st with calls := st.calls ++ [item] }
  let prog := { st.progress with
    failed_items := st.progress.failed_items + 1,
    failed_ids := st.progress.failed_ids ++ [item],
    processed_items := st.progress.processed_items + 1 }
  if cfg.isolated_errors then { st with progress := prog }
  else
    { st with progress := prog,
              events := st.events ++ [SaveEvent.checkpoint prog],
              aborted := true }

/-- The body of the `for` loop of `process_chunked` (lines 203-267): skip
ids already in the resume set, otherwise call `process_func` and take the
branch matching its outcome. -/
def processItem (cfg : ProcCfg) (pf : Nat → ProcResult) (processedSet : List Nat)
    (st : RunState) (item : Nat) : RunState :=
  if st.aborted then st
  else if cfg.resume && processedSet.contains item then
    { st with progress :=
        { st.progress with skipped_items := st.progress.skipped_items + 1 } }
  else
    match pf item with
    | .ok r => stepOk cfg st item r
    | .noneResult => stepNone cfg st item
    | .raised => stepRaised cfg st item

/-- Lines 269-290: on normal completion flush the final partial chunk and
then the final checkpoint; on an abort the handler persists the checkpoint
first and then flushes the pending results before re-raising. -/
def finishRun (st : RunState) : RunState :=
  if st.aborted then
    let events := st.events ++ [SaveEvent.checkpoint st.progress]
    if st.current_chunk.isEmpty then { st with events := events }
    else { st with events := events ++ [SaveEvent.results st.current_chunk] }
  else
    let events :=
      if st.current_chunk.isEmpty then st.events
      else st.events ++ [SaveEvent.results st.current_chunk]
    { st with events := events ++ [SaveEvent.checkpoint st.progress] }

/-- `process_chunked(items, process_func, total_items, resume)` starting
from the loaded checkpoint `init` (the `processed_set` is computed once,
before the loop). -/
def processChunked (cfg : ProcCfg) (pf : Nat → ProcResult) (init : ChunkProgress)
    (totalItems : Option Nat) (items : List Nat) : RunState :=
  let init := match totalItems with
    | some n =>
        if n ≠ 0 then
          { init with total_items := n,
                      total_chunks := (n + cfg.chunk_size - 1) / cfg.chunk_size }
        else init
    | none => init
  let processedSet := if cfg.resume then init.processed_ids else []
  finishRun (items.foldl (processItem cfg pf processedSet) ⟨init, [], [], 0, [], [], false⟩)

/-- C4. The spec scenario: `chunk_size=2`, five items, item 3 raises and the
others return non-None results, isolated errors on, fresh checkpoint. The
final progress has `processed_items = 5`, `failed_items = 1`,
`processed_ids = [1, 2, 4, 5]` and `failed_ids = [3]`. -/
theorem chunked_scenario_five_items :
    (processChunked ⟨2, 10, true, true⟩
        (fun i => if i = 3 then ProcResult.raised else ProcResult.ok i)
        freshProgress (some 5) [1, 2, 3, 4, 5]).progress.processed_items = 5 ∧
    (processChunked ⟨2, 10, true, true⟩
        (fun i => if i = 3 then ProcResult.raised else ProcResult.ok i)
        freshProgress (some 5) [1, 2, 3, 4, 5]).progress.failed_items = 1 ∧
    (processChunked ⟨2, 10, true, true⟩
        (fun i => if i = 3 then ProcResult.raised else ProcResult.ok i)
        freshProgress (some 5) [1, 2, 3, 4, 5]).progress.processed_ids = [1, 2, 4, 5] ∧
    (processChunked ⟨2, 10, true, true⟩
        (fun i => if i = 3 then ProcResult.raised else ProcResult.ok i)
        freshProgress (some 5) [1, 2, 3, 4, 5]).progress.failed_ids = [3] := by
  decide

/-! ## Durability of results versus the persisted checkpoint (C1, C10) -/

/-- The items of `l` whose processing returns a non-None result. -/
def okIds (pf : Nat → ProcResult) (l : List Nat) : List Nat :=
  l.filter (fun i => match pf i with | .ok _ => true | _ => false)

/-- The non-None results of `l`, in processing order. -/
def okResults (pf : Nat → ProcResult) (l : List Nat) : List Nat :=
  l.filterMap (fun i => match pf i with | .ok r => some r | _ => none)

/-- The result lines durably appended by the `save_results` events of a
trace, in order. -/
def flushedResults (evs : List SaveEvent) : List Nat :=
  (evs.filterMap (fun e => match e with | .results rs => some rs | _ => none)).flatten

/-- The result lines durable strictly before position `k` of the trace. -/
def resultsFlushedBefore (evs : List SaveEvent) (k : Nat) : List Nat :=
  flushedResults (evs.take k)

/-- How many result lines are durable strictly before position `k`. -/
def flushCountBefore (evs : List SaveEvent) (k : Nat) : Nat :=
  (resultsFlushedBefore evs k).length

/-- The claimed ordering, as a check over a trace of a run in which each
item's result is the item id itself: at every checkpoint write, every id in
the persisted `processed_ids` already has its result durably flushed. -/
def checkpointIdsCovered (evs : List SaveEvent) : Bool :=
  (List.range evs.length).all fun k =>
    match evs.get? k with
    | some (SaveEvent.checkpoint p) =>
        p.processed_ids.all (fun i => (resultsFlushedBefore evs k).contains i)
    | _ => true

/-- C1 counterexample: two items that both succeed, `chunk_size = 2`,
`save_interval = 10`, results equal to ids. At the chunk boundary the code
persists the checkpoint (already naming ids 1 and 2 in `processed_ids`)
before flushing the pending chunk, so the first trace event is a checkpoint
whose ids have no durably flushed results yet: an interruption there leaves
ids recorded as processed whose results were never written. -/
theorem checkpoint_persisted_before_results_flush :
    checkpointIdsCovered
      (processChunked ⟨2, 10, true, true⟩ (fun i => ProcResult.ok i) freshProgress none
        [1, 2]).events = false := by
  decide

theorem flushedResults_append (a b : List SaveEvent) :
    flushedResults (a ++ b) = flushedResults a ++ flushedResults b := by
  simp [flushedResults, List.filterMap_append]

theorem flushedResults_checkpoint (p : ChunkProgress) :
    flushedResults [SaveEvent.checkpoint p] = [] := rfl

theorem flushedResults_results (rs : List Nat) :
    flushedResults [SaveEvent.results rs] = rs := by
  simp [flushedResults]

theorem okIds_append (pf : Nat → ProcResult) (a b : List Nat) :
    okIds pf (a ++ b) = okIds pf a ++ okIds pf b := by
  simp [okIds]

theorem okResults_append (pf : Nat → ProcResult) (a b : List Nat) :
    okResults pf (a ++ b) = okResults pf a ++ okResults pf b := by
  simp [okResults]

theorem okIds_length_eq (pf : Nat → ProcResult) (l : List Nat) :
    (okIds pf l).length = (okResults pf l).length := by
  induction l with
  | nil => rfl
  | cons i t ih =>
      cases hpf : pf i <;>
        simp [okIds, okResults, List.filter_cons, List.filterMap_cons, hpf] <;>
        simpa [okIds, okResults] using ih

/-- `a` is an initial segment of `b`. -/
def idsPre (a b : List Nat) : Prop := ∃ t, a ++ t = b

theorem idsPre_refl (a : List Nat) : idsPre a a := ⟨[], by simp⟩

theorem idsPre_append_right (a b t : List Nat) (h : idsPre a b) : idsPre a (b ++ t) := by
  rcases h with ⟨u, hu⟩
  exact ⟨u ++ t, by rw [← List.append_assoc, hu]⟩

theorem idsPre_take (a b : List Nat) (n : Nat) (h : idsPre a b) (hn : n ≤ a.length) :
    b.take n = a.take n := by
  rcases h with ⟨u, hu⟩
  rw [← hu]
  exact List.take_append_of_le_length hn

/-- The checkpoint-coverage clause survives appending events, given the new
events satisfy it at their own positions. -/
theorem ckptClause_extend (evs tail : List SaveEvent) (X : List Nat)
    (hold : ∀ k p, evs.get? k = some (SaveEvent.checkpoint p) →
      flushCountBefore evs k ≤ p.processed_ids.length ∧ idsPre p.processed_ids X)
    (hnew : ∀ k p, tail.get? k = some (SaveEvent.checkpoint p) →
      flushCountBefore (evs ++ tail) (evs.length + k) ≤ p.processed_ids.length ∧
      idsPre p.processed_ids X) :
    ∀ k p, (evs ++ tail).get? k = some (SaveEvent.checkpoint p) →
      flushCountBefore (evs ++ tail) k ≤ p.processed_ids.length ∧
      idsPre p.processed_ids X := by
  intro k p hk
  by_cases hlt : k < evs.length
  · rw [List.get?_append hlt] at hk
    have hres := hold k p hk
    have htake : flushCountBefore (evs ++ tail) k = flushCountBefore evs k := by
      unfold flushCountBefore resultsFlushedBefore
      rw [List.take_append_of_le_length (le_of_lt hlt)]
    rw [htake]
    exact hres
  · push_neg at hlt
    rw [List.get?_append_right hlt] at hk
    have hres := hnew (k - evs.length) p hk
    rwa [Nat.add_sub_cancel' hlt] at hres

/-- Weakening of the checkpoint clause when the live id list grows. -/
theorem ckptClause_growIds (evs : List SaveEvent) (X X' : List Nat) (hX : idsPre X X')
    (h : ∀ k p, evs.get? k = some (SaveEvent.checkpoint p) →
      flushCountBefore evs k ≤ p.processed_ids.length ∧ idsPre p.processed_ids X) :
    ∀ k p, evs.get? k = some (SaveEvent.checkpoint p) →
      flushCountBefore evs k ≤ p.processed_ids.length ∧ idsPre p.processed_ids X' := by
  intro k p hk
  rcases h k p hk with ⟨h1, t, ht⟩
  rcases hX with ⟨u, hu⟩
  exact ⟨h1, t ++ u, by rw [← List.append_assoc, ht, hu]⟩

theorem flushCountBefore_append_length (evs tail : List SaveEvent) :
    flushCountBefore (evs ++ tail) evs.length = (flushedResults evs).length := by
  unfold flushCountBefore resultsFlushedBefore
  rw [List.take_append_of_le_length (le_refl _), List.take_length]

/-- Invariant of the loop of `process_chunked` on a fresh run (`js` is the
list of items consumed so far): the run has not aborted, `processed_ids` is
exactly the ids of the items that returned a result, the durably flushed
results plus the pending chunk are exactly those results in order, the
pending chunk stays below `save_interval`, every checkpoint snapshot in the
trace was taken with at most as many results flushed as ids recorded and its
ids are an initial segment of the live ids, the counters match, and
`process_func` was called once per item. -/
structure LoopInv (cfg : ProcCfg) (pf : Nat → ProcResult) (js : List Nat)
    (st : RunState) : Prop where
  notAborted : st.aborted = false
  ids : st.progress.processed_ids = okIds pf js
  pending : flushedResults st.events ++ st.current_chunk = okResults pf js
  chunkBound : cfg.save_interval = 0 ∨ st.current_chunk.length < cfg.save_interval
  ckpt : ∀ k p, st.events.get? k = some (SaveEvent.checkpoint p) →
    flushCountBefore st.events k ≤ p.processed_ids.length ∧
    idsPre p.processed_ids st.progress.processed_ids
  processedCount : st.progress.processed_items = js.length
  skippedCount : st.progress.skipped_items
    = js.countP (fun i => pf i == ProcResult.noneResult)
  callsTrace : st.calls = js

theorem loopInv_start (cfg : ProcCfg) (pf : Nat → ProcResult) :
    LoopInv cfg pf [] ⟨freshProgress, [], [], 0, [], [], false⟩ := by
  refine ⟨rfl, rfl, rfl, ?_, ?_, rfl, rfl, rfl⟩
  · rcases Nat.eq_zero_or_pos cfg.save_interval with h | h
    · exact Or.inl h
    · exact Or.inr h
  · intro k p hk
    simp at hk

theorem get?_singleton_succ (e : SaveEvent) (n : Nat) :
    ([e] : List SaveEvent).get? (n + 1) = none := rfl

theorem get?_pair_succ_succ (e e' : SaveEvent) (n : Nat) :
    ([e, e'] : List SaveEvent).get? (n + 2) = none := rfl

/-- The checkpoint clause for a freshly appended `[checkpoint prog]` tail. -/
theorem ckptTail_single (evs : List SaveEvent) (prog : ChunkProgress) (X : List Nat)
    (hcount : (flushedResults evs).length ≤ prog.processed_ids.length)
    (hpre : idsPre prog.processed_ids X) :
    ∀ k p, ([SaveEvent.checkpoint prog] : List SaveEvent).get? k
        = some (SaveEvent.checkpoint p) →
      flushCountBefore (evs ++ [SaveEvent.checkpoint prog]) (evs.length + k)
        ≤ p.processed_ids.length ∧ idsPre p.processed_ids X := by
  intro k p hk
  cases k with
  | zero =>
      have hp : prog = p := SaveEvent.checkpoint.inj (Option.some.inj hk)
      subst hp
      refine ⟨?_, hpre⟩
      simp only [Nat.add_zero]
      rw [flushCountBefore_append_length]
      exact hcount
  | succ n =>
      rw [get?_singleton_succ] at hk
      cases hk

/-- The checkpoint clause for an appended `[checkpoint prog, results c]`
tail (the chunk-boundary order: checkpoint first, results after). -/
theorem ckptTail_pair (evs : List SaveEvent) (prog : ChunkProgress) (c X : List Nat)
    (hcount : (flushedResults evs).length ≤ prog.processed_ids.length)
    (hpre : idsPre prog.processed_ids X) :
    ∀ k p, ([SaveEvent.checkpoint prog, SaveEvent.results c] : List SaveEvent).get? k
        = some (SaveEvent.checkpoint p) →
      flushCountBefore (evs ++ [SaveEvent.checkpoint prog, SaveEvent.results c])
          (evs.length + k)
        ≤ p.processed_ids.length ∧ idsPre p.processed_ids X := by
  intro k p hk
  match k with
  | 0 =>
      have hp : prog = p := SaveEvent.checkpoint.inj (Option.some.inj hk)
      subst hp
      refine ⟨?_, hpre⟩
      simp only [Nat.add_zero]
      rw [flushCountBefore_append_length]
      exact hcount
  | 1 => exact SaveEvent.noConfusion (Option.some.inj hk)
  | n + 2 =>
      rw [get?_pair_succ_succ] at hk
      cases hk

theorem loopInv_chunkBoundary (cfg : ProcCfg) (pf : Nat → ProcResult) (js : List Nat)
    (st : RunState) (h : LoopInv cfg pf js st) :
    LoopInv cfg pf js (chunkBoundary cfg st) := by
  have hflushLe : (flushedResults st.events).length ≤ st.progress.processed_ids.length := by
    have hlen := congrArg List.length h.pending
    rw [List.length_append] at hlen
    have hids : st.progress.processed_ids.length = (okResults pf js).length := by
      rw [h.ids, okIds_length_eq]
    omega
  unfold chunkBoundary
  by_cases hc : cfg.chunk_size ≤ st.item_count
  · simp only [if_pos hc]
    by_cases he : st.current_chunk.isEmpty
    · simp only [he, if_pos]
      refine ⟨h.notAborted, h.ids, ?_, h.chunkBound, ?_, h.processedCount,
        h.skippedCount, h.callsTrace⟩
      · simp only [flushedResults_append, flushedResults_checkpoint, List.append_nil]
        exact h.pending
      · exact ckptClause_extend st.events _ _ h.ckpt
          (ckptTail_single st.events _ _ hflushLe (idsPre_refl _))
    · simp only [he, Bool.false_eq_true, if_false, if_neg]
      refine ⟨h.notAborted, h.ids, ?_, ?_, ?_, h.processedCount,
        h.skippedCount, h.callsTrace⟩
      · simp only [List.append_assoc, flushedResults_append, flushedResults_checkpoint,
          flushedResults_results, List.append_nil, List.nil_append]
        exact h.pending
      · rcases Nat.eq_zero_or_pos cfg.save_interval with h0 | h0
        · exact Or.inl h0
        · exact Or.inr h0
      · simp only [List.append_assoc, List.singleton_append]
        exact ckptClause_extend st.events _ _ h.ckpt
          (ckptTail_pair st.events _ _ _ hflushLe (idsPre_refl _))
  · simp only [if_neg hc]
    exact h

/-- A `results` tail adds no checkpoint events. -/
theorem ckptTail_results (evs : List SaveEvent) (c X : List Nat) :
    ∀ k p, ([SaveEvent.results c] : List SaveEvent).get? k
        = some (SaveEvent.checkpoint p) →
      flushCountBefore (evs ++ [SaveEvent.results c]) (evs.length + k)
        ≤ p.processed_ids.length ∧ idsPre p.processed_ids X := by
  intro k p hk
  cases k with
  | zero => exact SaveEvent.noConfusion (Option.some.inj hk)
  | succ n =>
      rw [get?_singleton_succ] at hk
      cases hk

theorem okIds_singleton_ok (pf : Nat → ProcResult) (item r : Nat) (hpf : pf item = .ok r) :
    okIds pf [item] = [item] := by
  simp [okIds, List.filter_cons, hpf]

theorem okResults_singleton_ok (pf : Nat → ProcResult) (item r : Nat)
    (hpf : pf item = .ok r) : okResults pf [item] = [r] := by
  simp [okResults, List.filterMap_cons, hpf]

theorem loopInv_stepOk (cfg : ProcCfg) (pf : Nat → ProcResult) (js : List Nat)
    (st : RunState) (item r : Nat) (hpf : pf item = .ok r) (h : LoopInv cfg pf js st) :
    LoopInv cfg pf (js ++ [item]) (stepOk cfg st item r) := by
  unfold stepOk
  apply loopInv_chunkBoundary
  have hids : okIds pf (js ++ [item]) = okIds pf js ++ [item] := by
    rw [okIds_append, okIds_singleton_ok pf item r hpf]
  have hres : okResults pf (js ++ [item]) = okResults pf js ++ [r] := by
    rw [okResults_append, okResults_singleton_ok pf item r hpf]
  have hskip : (js ++ [item]).countP (fun i => pf i == ProcResult.noneResult)
      = js.countP (fun i => pf i == ProcResult.noneResult) := by
    simp [List.countP_append, List.countP_cons, hpf]
  by_cases hfir : cfg.save_interval ≤ (st.current_chunk ++ [r]).length
  · have hbatch :
        (if cfg.save_interval = 0 then st.current_chunk ++ [r]
         else (st.current_chunk ++ [r]).drop
           ((st.current_chunk ++ [r]).length - cfg.save_interval))
          = st.current_chunk ++ [r] := by
      by_cases h0 : cfg.save_interval = 0
      · rw [if_pos h0]
      · rw [if_neg h0]
        have hlt : st.current_chunk.length < cfg.save_interval := by
          rcases h.chunkBound with hb | hb
          · exact absurd hb h0
          · exact hb
        have hlen : (st.current_chunk ++ [r]).length = cfg.save_interval := by
          rw [List.length_append]
          simp only [List.length_cons, List.length_nil]
          have hle : cfg.save_interval ≤ st.current_chunk.length + 1 := by
            simpa [List.length_append] using hfir
          omega
        rw [hlen, Nat.sub_self, List.drop_zero]
    simp only [if_pos hfir, hbatch]
    refine ⟨h.notAborted, ?_, ?_, ?_, ?_, ?_, ?_, ?_⟩
    · show st.progress.processed_ids ++ [item] = okIds pf (js ++ [item])
      rw [hids, h.ids]
    · show flushedResults (st.events ++ [SaveEvent.results (st.current_chunk ++ [r])])
          ++ [] = okResults pf (js ++ [item])
      rw [flushedResults_append, flushedResults_results, hres, List.append_nil,
        ← List.append_assoc, h.pending]
    · rcases Nat.eq_zero_or_pos cfg.save_interval with h0 | h0
      · exact Or.inl h0
      · exact Or.inr h0
    · refine ckptClause_extend st.events _ _ ?_ (ckptTail_results st.events _ _)
      exact ckptClause_growIds st.events _ _ ⟨[item], rfl⟩ h.ckpt
    · show st.progress.processed_items + 1 = (js ++ [item]).length
      rw [h.processedCount, List.length_append]
      rfl
    · show st.progress.skipped_items
        = (js ++ [item]).countP (fun i => pf i == ProcResult.noneResult)
      rw [hskip, h.skippedCount]
    · show st.calls ++ [item] = js ++ [item]
      rw [h.callsTrace]
  · simp only [if_neg hfir]
    refine ⟨h.notAborted, ?_, ?_, ?_, ?_, ?_, ?_, ?_⟩
    · show st.progress.processed_ids ++ [item] = okIds pf (js ++ [item])
      rw [hids, h.ids]
    · show flushedResults st.events ++ (st.current_chunk ++ [r])
          = okResults pf (js ++ [item])
      rw [hres, ← List.append_assoc, h.pending]
    · right
      show (st.current_chunk ++ [r]).length < cfg.save_interval
      omega
    · exact ckptClause_growIds st.events _ _ ⟨[item], rfl⟩ h.ckpt
    · show st.progress.processed_items + 1 = (js ++ [item]).length
      rw [h.processedCount, List.length_append]
      rfl
    · show st.progress.skipped_items
        = (js ++ [item]).countP (fun i => pf i == ProcResult.noneResult)
      rw [hskip, h.skippedCount]
    · show st.calls ++ [item] = js ++ [item]
      rw [h.callsTrace]

theorem loopInv_stepNone (cfg : ProcCfg) (pf : Nat → ProcResult) (js : List Nat)
    (st : RunState) (item : Nat) (hpf : pf item = .noneResult) (h : LoopInv cfg pf js st) :
    LoopInv cfg pf (js ++ [item]) (stepNone cfg st item) := by
  unfold stepNone
  apply loopInv_chunkBoundary
  have hids : okIds pf (js ++ [item]) = okIds pf js := by
    rw [okIds_append]
    simp [okIds, List.filter_cons, hpf]
  have hres : okResults pf (js ++ [item]) = okResults pf js := by
    rw [okResults_append]
    simp [okResults, List.filterMap_cons, hpf]
  refine ⟨h.notAborted, ?_, ?_, h.chunkBound, h.ckpt, ?_, ?_, ?_⟩
  · show st.progress.processed_ids = okIds pf (js ++ [item])
    rw [hids, h.ids]
  · show flushedResults st.events ++ st.current_chunk = okResults pf (js ++ [item])
    rw [hres, h.pending]
  · show st.progress.processed_items + 1 = (js ++ [item]).length
    rw [h.processedCount, List.length_append]
    rfl
  · show st.progress.skipped_items + 1
      = (js ++ [item]).countP (fun i => pf i == ProcResult.noneResult)
    rw [List.countP_append, h.skippedCount]
    simp [List.countP_cons, hpf]
  · show st.calls ++ [item] = js ++ [item]
    rw [h.callsTrace]

theorem loopInv_stepRaised (cfg : ProcCfg) (pf : Nat → ProcResult) (js : List Nat)
    (st : RunState) (item : Nat) (hiso : cfg.isolated_errors = true)
    (hpf : pf item = .raised) (h : LoopInv cfg pf js st) :
    LoopInv cfg pf (js ++ [item]) (stepRaised cfg st item) := by
  unfold stepRaised
  simp only [hiso, if_pos]
  have hids : okIds pf (js ++ [item]) = okIds pf js := by
    rw [okIds_append]
    simp [okIds, List.filter_cons, hpf]
  have hres : okResults pf (js ++ [item]) = okResults pf js := by
    rw [okResults_append]
    simp [okResults, List.filterMap_cons, hpf]
  refine ⟨h.notAborted, ?_, ?_, h.chunkBound, h.ckpt, ?_, ?_, ?_⟩
  · show st.progress.processed_ids = okIds pf (js ++ [item])
    rw [hids, h.ids]
  · show flushedResults st.events ++ st.current_chunk = okResults pf (js ++ [item])
    rw [hres, h.pending]
  · show st.progress.processed_items + 1 = (js ++ [item]).length
    rw [h.processedCount, List.length_append]
    rfl
  · show st.progress.skipped_items
      = (js ++ [item]).countP (fun i => pf i == ProcResult.noneResult)
    rw [List.countP_append, h.skippedCount]
    simp [List.countP_cons, hpf]
  · show st.calls ++ [item] = js ++ [item]
    rw [h.callsTrace]

/-- On a fresh run no item is skipped, so every consumed item preserves the
invariant. -/
theorem loopInv_processItem (cfg : ProcCfg) (pf : Nat → ProcResult) (js : List Nat)
    (st : RunState) (item : Nat) (hiso : cfg.isolated_errors = true)
    (h : LoopInv cfg pf js st) :
    LoopInv cfg pf (js ++ [item]) (processItem cfg pf [] st item) := by
  unfold processItem
  simp only [h.notAborted, Bool.false_eq_true, if_false, List.contains_nil,
    Bool.and_false]
  cases hpf : pf item with
  | ok r => exact loopInv_stepOk cfg pf js st item r hpf h
  | noneResult => exact loopInv_stepNone cfg pf js st item hpf h
  | raised => exact loopInv_stepRaised cfg pf js st item hiso hpf h

theorem loopInv_foldl (cfg : ProcCfg) (pf : Nat → ProcResult)
    (hiso : cfg.isolated_errors = true) :
    ∀ (items js : List Nat) (st : RunState), LoopInv cfg pf js st →
      LoopInv cfg pf (js ++ items) (items.foldl (processItem cfg pf []) st) := by
  intro items
  induction items with
  | nil =>
      intro js st h
      simpa using h
  | cons i rest ih =>
      intro js st h
      have hstep := loopInv_processItem cfg pf js st i hiso h
      have := ih (js ++ [i]) _ hstep
      simpa [List.append_assoc] using this

theorem finishRun_progress (st : RunState) : (finishRun st).progress = st.progress := by
  unfold finishRun
  split_ifs <;> rfl

theorem finishRun_calls (st : RunState) : (finishRun st).calls = st.calls := by
  unfold finishRun
  split_ifs <;> rfl

/-- On an unaborted run the final flush makes the whole pending chunk
durable. -/
theorem finishRun_flushed (st : RunState) (hab : st.aborted = false) :
    flushedResults (finishRun st).events
      = flushedResults st.events ++ st.current_chunk := by
  unfold finishRun
  simp only [hab, Bool.false_eq_true, if_false]
  by_cases hce : st.current_chunk.isEmpty
  · have hnil : st.current_chunk = [] := by simpa using hce
    simp [hce, flushedResults_append, flushedResults_checkpoint, hnil]
  · simp [hce, flushedResults_append, flushedResults]

/-- On an unaborted run, the trace of `finishRun` still satisfies the
checkpoint clause, now with every result durable. -/
theorem finishRun_ckptClause (cfg : ProcCfg) (pf : Nat → ProcResult) (js : List Nat)
    (st : RunState) (h : LoopInv cfg pf js st) :
    ∀ k p, (finishRun st).events.get? k = some (SaveEvent.checkpoint p) →
      flushCountBefore (finishRun st).events k ≤ p.processed_ids.length ∧
      idsPre p.processed_ids st.progress.processed_ids := by
  have hflushLe : (flushedResults st.events).length + st.current_chunk.length
      = st.progress.processed_ids.length := by
    have hlen := congrArg List.length h.pending
    rw [List.length_append] at hlen
    have hids : st.progress.processed_ids.length = (okResults pf js).length := by
      rw [h.ids, okIds_length_eq]
    omega
  unfold finishRun
  simp only [h.notAborted, Bool.false_eq_true, if_false]
  by_cases hce : st.current_chunk.isEmpty
  · simp only [hce, if_pos]
    exact ckptClause_extend st.events _ _ h.ckpt
      (ckptTail_single st.events _ _ (by omega) (idsPre_refl _))
  · simp only [hce, Bool.false_eq_true, if_false]
    simp only [List.append_assoc, List.singleton_append]
    refine ckptClause_extend st.events _ _ h.ckpt ?_
    intro k p hk
    match k with
    | 0 => exact SaveEvent.noConfusion (Option.some.inj hk)
    | 1 =>
        have hp : st.progress = p := SaveEvent.checkpoint.inj (Option.some.inj hk)
        subst hp
        refine ⟨?_, idsPre_refl _⟩
        have htake :
            flushCountBefore
              (st.events ++
                [SaveEvent.results st.current_chunk,
                 SaveEvent.checkpoint st.progress])
              (st.events.length + 1)
            = (flushedResults st.events).length + st.current_chunk.length := by
          unfold flushCountBefore resultsFlushedBefore
          rw [List.take_append, flushedResults_append]
          simp [flushedResults]
        rw [htake, hflushLe]
    | n + 2 =>
        rw [get?_pair_succ_succ] at hk
        cases hk

/-- C1 amended. For every fresh isolated run: when the run completes, the
results file holds exactly the non-None results in order and the final
checkpoint's `processed_ids` are exactly their items; and at every
checkpoint write in the trace, every id whose result was already durably
flushed at that moment (the flushed results are always the results of the
first ids recorded) is contained in the persisted `processed_ids` —
"durably flushed implies recorded". The converse ordering claimed by the
spec ("recorded only after flushed") is refuted by the counterexample. -/
theorem checkpoint_covers_flushed (cfg : ProcCfg) (pf : Nat → ProcResult)
    (items : List Nat) (hiso : cfg.isolated_errors = true) :
    (processChunked cfg pf freshProgress none items).progress.processed_ids
      = okIds pf items ∧
    flushedResults (processChunked cfg pf freshProgress none items).events
      = okResults pf items ∧
    (∀ k p, (processChunked cfg pf freshProgress none items).events.get? k
        = some (SaveEvent.checkpoint p) →
      ∀ i ∈ (okIds pf items).take
          (flushCountBefore (processChunked cfg pf freshProgress none items).events k),
        i ∈ p.processed_ids) := by
  have hps : (if cfg.resume then freshProgress.processed_ids else ([] : List Nat))
      = [] := by
    cases cfg.resume <;> rfl
  have hF : processChunked cfg pf freshProgress none items
      = finishRun (items.foldl (processItem cfg pf [])
          ⟨freshProgress, [], [], 0, [], [], false⟩) := by
    simp only [processChunked]
    rw [hps]
  have hloop := loopInv_foldl cfg pf hiso items [] _ (loopInv_start cfg pf)
  rw [List.nil_append] at hloop
  rw [hF]
  set L := items.foldl (processItem cfg pf []) ⟨freshProgress, [], [], 0, [], [], false⟩
    with hL
  refine ⟨?_, ?_, ?_⟩
  · rw [finishRun_progress]
    exact hloop.ids
  · rw [finishRun_flushed L hloop.notAborted, hloop.pending]
  · intro k p hk
    rcases finishRun_ckptClause cfg pf items L hloop k p hk with ⟨hle, hpre⟩
    rw [hloop.ids] at hpre
    intro i hi
    rw [idsPre_take p.processed_ids (okIds pf items) _ hpre hle] at hi
    exact List.take_subset _ _ hi

/-- Witness for C1 amended at a concrete two-item run. -/
theorem checkpoint_covers_flushed_witness :
    flushedResults
      (processChunked ⟨2, 10, true, true⟩ (fun i => ProcResult.ok i) freshProgress none
        [1, 2]).events
      = okResults (fun i => ProcResult.ok i) [1, 2] :=
  (checkpoint_covers_flushed ⟨2, 10, true, true⟩ (fun i => ProcResult.ok i) [1, 2] rfl).2.1

theorem chunkBoundary_calls (cfg : ProcCfg) (st : RunState) :
    (chunkBoundary cfg st).calls = st.calls := by
  unfold chunkBoundary
  split_ifs <;> rfl

theorem chunkBoundary_aborted (cfg : ProcCfg) (st : RunState) :
    (chunkBoundary cfg st).aborted = st.aborted := by
  unfold chunkBoundary
  split_ifs <;> rfl

theorem processItem_calls_extends (cfg : ProcCfg) (pf : Nat → ProcResult)
    (ps : List Nat) (st : RunState) (item : Nat) :
    ∃ t, (processItem cfg pf ps st item).calls = st.calls ++ t := by
  unfold processItem
  by_cases hab : st.aborted = true
  · refine ⟨[], ?_⟩
    simp [hab]
  · have hab' : st.aborted = false := by simpa using hab
    simp only [hab', Bool.false_eq_true, if_false]
    by_cases hsk : (cfg.resume && ps.contains item) = true
    · refine ⟨[], ?_⟩
      rw [if_pos hsk, List.append_nil]
    · rw [if_neg hsk]
      cases pf item with
      | ok r => exact ⟨[item], by simp [stepOk, chunkBoundary_calls]⟩
      | noneResult => exact ⟨[item], by simp [stepNone, chunkBoundary_calls]⟩
      | raised =>
          refine ⟨[item], ?_⟩
          unfold stepRaised
          split_ifs <;> rfl

theorem processItem_aborted_false (cfg : ProcCfg) (pf : Nat → ProcResult)
    (ps : List Nat) (st : RunState) (item : Nat) (hiso : cfg.isolated_errors = true)
    (hab : st.aborted = false) :
    (processItem cfg pf ps st item).aborted = false := by
  unfold processItem
  simp only [hab, Bool.false_eq_true, if_false]
  by_cases hsk : (cfg.resume && ps.contains item) = true
  · rw [if_pos hsk]
  · rw [if_neg hsk]
    cases pf item with
    | ok r => simpa [stepOk, chunkBoundary_aborted] using hab
    | noneResult => simpa [stepNone, chunkBoundary_aborted] using hab
    | raised => simpa [stepRaised, hiso] using hab

theorem foldl_calls_extends (cfg : ProcCfg) (pf : Nat → ProcResult) (ps : List Nat) :
    ∀ (items : List Nat) (st : RunState),
      ∃ t, (items.foldl (processItem cfg pf ps) st).calls = st.calls ++ t := by
  intro items
  induction items with
  | nil => exact fun st => ⟨[], by simp⟩
  | cons i rest ih =>
      intro st
      rcases ih (processItem cfg pf ps st i) with ⟨t2, ht2⟩
      rcases processItem_calls_extends cfg pf ps st i with ⟨t1, ht1⟩
      exact ⟨t1 ++ t2, by simp [List.foldl_cons, ht2, ht1]⟩

/-- An unskipped item is passed to `process_func`. -/
theorem processItem_self_called (cfg : ProcCfg) (pf : Nat → ProcResult) (ps : List Nat)
    (st : RunState) (item : Nat) (hab : st.aborted = false)
    (hsk : ps.contains item = false) :
    item ∈ (processItem cfg pf ps st item).calls := by
  unfold processItem
  simp only [hab, Bool.false_eq_true, if_false, hsk, Bool.and_false]
  cases pf item with
  | ok r =>
      simp [stepOk, chunkBoundary_calls]
  | noneResult =>
      simp [stepNone, chunkBoundary_calls]
  | raised =>
      unfold stepRaised
      split_ifs <;> simp

/-- Every item of the input that is not filtered by the resume set is passed
to `process_func` during the loop. -/
theorem mem_calls_foldl (cfg : ProcCfg) (pf : Nat → ProcResult) (ps : List Nat)
    (hiso : cfg.isolated_errors = true) :
    ∀ (items : List Nat) (st : RunState) (x : Nat), x ∈ items →
      ps.contains x = false → st.aborted = false →
      x ∈ (items.foldl (processItem cfg pf ps) st).calls := by
  intro items
  induction items with
  | nil => intro st x hx; cases hx
  | cons i rest ih =>
      intro st x hx hsk hab
      rcases List.mem_cons.1 hx with hx | hx
      · subst hx
        rcases foldl_calls_extends cfg pf ps rest (processItem cfg pf ps st x) with ⟨t, ht⟩
        rw [List.foldl_cons, ht]
        exact List.mem_append_left _ (processItem_self_called cfg pf ps st x hab hsk)
      · rw [List.foldl_cons]
        exact ih (processItem cfg pf ps st i) x hx hsk
          (processItem_aborted_false cfg pf ps st i hiso hab)

/-- C10. An item whose `process_func` returns None is counted once in
`skipped_items` and once in `processed_items`, its id never enters
`processed_ids`, and the results file receives exactly the non-None results
(nothing for it); on a later run with `resume=True` starting from the final
checkpoint, the item is not filtered out by the checkpoint and
`process_func` is called on it again. -/
theorem none_result_reprocessed (cfg : ProcCfg) (pf : Nat → ProcResult)
    (items : List Nat) (x : Nat) (hiso : cfg.isolated_errors = true)
    (hres : cfg.resume = true) (hx : x ∈ items) (hpf : pf x = ProcResult.noneResult) :
    x ∉ (processChunked cfg pf freshProgress none items).progress.processed_ids ∧
    (processChunked cfg pf freshProgress none items).progress.skipped_items
      = items.countP (fun i => pf i == ProcResult.noneResult) ∧
    (processChunked cfg pf freshProgress none items).progress.processed_items
      = items.length ∧
    flushedResults (processChunked cfg pf freshProgress none items).events
      = okResults pf items ∧
    x ∈ (processChunked cfg pf
          (processChunked cfg pf freshProgress none items).progress none items).calls := by
  have hps : (if cfg.resume then freshProgress.processed_ids else ([] : List Nat))
      = [] := by
    cases cfg.resume <;> rfl
  have hF : processChunked cfg pf freshProgress none items
      = finishRun (items.foldl (processItem cfg pf [])
          ⟨freshProgress, [], [], 0, [], [], false⟩) := by
    simp only [processChunked]
    rw [hps]
  have hloop := loopInv_foldl cfg pf hiso items [] _ (loopInv_start cfg pf)
  rw [List.nil_append] at hloop
  have hnotin : x ∉ okIds pf items := by
    intro hmem
    have := List.of_mem_filter hmem
    rw [hpf] at this
    cases this
  have hids : (processChunked cfg pf freshProgress none items).progress.processed_ids
      = okIds pf items := by
    rw [hF, finishRun_progress]
    exact hloop.ids
  refine ⟨?_, ?_, ?_, ?_, ?_⟩
  · rw [hids]
    exact hnotin
  · rw [hF, finishRun_progress]
    exact hloop.skippedCount
  · rw [hF, finishRun_progress]
    exact hloop.processedCount
  · rw [hF, finishRun_flushed _ hloop.notAborted, hloop.pending]
  · have hcontains :
        (processChunked cfg pf freshProgress none items).progress.processed_ids.contains x
          = false := by
      rw [hids]
      cases hcase : (okIds pf items).contains x with
      | false => rfl
      | true =>
          rcases List.contains_iff_exists_mem_beq.mp hcase with ⟨a, ha, hba⟩
          have hxa : x = a := by simpa using hba
          exact absurd (hxa ▸ ha) hnotin
    have hF2 : processChunked cfg pf
        (processChunked cfg pf freshProgress none items).progress none items
        = finishRun (items.foldl
            (processItem cfg pf
              (processChunked cfg pf freshProgress none items).progress.processed_ids)
            ⟨(processChunked cfg pf freshProgress none items).progress,
             [], [], 0, [], [], false⟩) := by
      simp only [processChunked]
      rw [hres]
      simp only [if_pos]
    rw [hF2, finishRun_calls]
    exact mem_calls_foldl cfg pf _ hiso items _ x hx hcontains rfl

/-- Witness for C10: three items, the second returns None; it is absent from
`processed_ids` after the first run and called again on the resumed run. -/
theorem none_result_reprocessed_witness :
    2 ∉ (processChunked ⟨2, 10, true, true⟩
        (fun i => if i = 2 then ProcResult.noneResult else ProcResult.ok i)
        freshProgress none [1, 2, 3]).progress.processed_ids :=
  (none_result_reprocessed ⟨2, 10, true, true⟩
    (fun i => if i = 2 then ProcResult.noneResult else ProcResult.ok i)
    [1, 2, 3] 2 rfl rfl (by decide) (by decide)).1

end MessageExtractor
